import Mathlib

/-
Verification development for the qk allocation and state-lifetime core
(`src/copy.rs`, `src/lib.rs`).

The embedding covers:
* the generational slot table (`copy_ll::Queue` with `NodeRef` handles),
  whose source file is not part of the repository snapshot and is therefore
  modelled from the specification (section 4.1);
* the scope tree of `copy.rs` (`Scope::state`, `Scope::state_with`,
  `Scope::child`, `impl Drop for Scope`) together with the capacity
  heuristic cells (bytes-allocated and owned-handle-count estimators);
* the runtime keyed table of `copy.rs` in multi-instance ("ssr") mode;
* the `State<T>` / `Mapped` handle operations of `copy.rs`;
* the `DirtyTrackSet` read/write bitset tracker of `lib.rs`.

Machine integers are modelled as `Nat` with explicit `% 2 ^ width`
where the source uses fixed-width registers.
-/

namespace QK

/-- Modelled from the spec: `copy_ll::NodeRef`, the stable generational
handle addressing one slot-table entry ("stable key that must never be
dereferenced after its entry is removed; removal invalidates the handle"). -/
structure NodeRef where
  idx : Nat
  gen : Nat
deriving DecidableEq, Repr

/-- The values stored in slot-table cells.  The source erases the stored
type behind a raw pointer; the embedding uses one inductive of the value
shapes the claims need: integers, handles (so a value can store its own
`State` handle, as `state_with` constructors do), and pairs. -/
inductive Val where
  | int : Int → Val
  | handle : NodeRef → Val
  | pair : Val → Val → Val
deriving DecidableEq, Repr

/-- Modelled from the spec: one slot of the slot table.  `gen` is the
slot's current generation; `val = none` means the slot is vacant (its
value was removed, running the destructor).  The source's `NodeData`
carries a type-erased pointer plus a destructor function pointer; removal
of an occupied slot is the (unique) destructor invocation for the value. -/
structure Slot where
  gen : Nat
  val : Option Val
deriving DecidableEq, Repr

/-- Modelled from the spec: `copy_ll::Queue`, the generational slab behind
a `Runtime` ("a generational slab mapping stable handles to type-erased
value cells with custom destructors", O(1) insert / remove, checked
borrow that is fatal on a stale handle).  `freeList` holds the indices of
vacant slots available for reuse. -/
structure Queue where
  slots : List Slot
  freeList : List Nat
deriving DecidableEq, Repr

def Queue.empty : Queue := ⟨[], []⟩

/-- The handle the next insertion will return: the head of the free list
(with that slot's current generation), or a fresh index at the end. -/
def Queue.nextRef (q : Queue) : NodeRef :=
  match q.freeList with
  | i :: _ => ⟨i, (((q.slots[i]?).getD ⟨0, none⟩).gen)⟩
  | [] => ⟨q.slots.length, 0⟩

/-- Modelled from the spec: `insert(value, destructor) -> handle`.
Reuses the first vacant slot if one exists, otherwise appends a fresh
slot; returns the updated table and the new handle. -/
def Queue.insert (q : Queue) (v : Val) : Queue × NodeRef :=
  match q.freeList with
  | i :: rest =>
      (⟨q.slots.set i ⟨((q.slots[i]?).getD ⟨0, none⟩).gen, some v⟩, rest⟩,
       ⟨i, ((q.slots[i]?).getD ⟨0, none⟩).gen⟩)
  | [] => (⟨q.slots ++ [⟨0, some v⟩], []⟩, ⟨q.slots.length, 0⟩)

/-- Modelled from the spec: `insert_with` — the self-referential insertion
primitive ("reserve a slot first, hand out its handle, run the
constructor, then finalize the slot's contents"). -/
def Queue.insertWith (q : Queue) (ctor : NodeRef → Val) : Queue × NodeRef :=
  q.insert (ctor q.nextRef)

/-- Modelled from the spec: checked borrow.  `none` models the fatal
stale-handle / wrong-generation panic. -/
def Queue.borrow (q : Queue) (h : NodeRef) : Option Val :=
  match q.slots[h.idx]? with
  | some s => if s.gen = h.gen then s.val else none
  | none => none

/-- A handle is live when a checked borrow through it succeeds. -/
def Queue.live (q : Queue) (h : NodeRef) : Bool :=
  (q.borrow h).isSome

/-- Modelled from the spec: `remove(handle)` — invalidates the handle
(bumping the slot's generation), runs the destructor exactly once, frees
the slot for reuse; `none` models the fatal double-removal / stale-handle
error. -/
def Queue.remove (q : Queue) (h : NodeRef) : Option Queue :=
  match q.slots[h.idx]? with
  | some s =>
      if s.gen = h.gen then
        match s.val with
        | some _ => some ⟨q.slots.set h.idx ⟨s.gen + 1, none⟩, h.idx :: q.freeList⟩
        | none => none
      else none
  | none => none

/-- Modelled from the spec: checked mutable borrow (`borrow_mut`) running
a mutator on the cell's value and writing the result back; `none` models
the fatal stale-handle error.  The mutator returns the closure's result
together with the new cell value. -/
def Queue.borrowMut {α : Type} (q : Queue) (h : NodeRef) (f : Val → α × Val) :
    Option (α × Queue) :=
  match q.slots[h.idx]? with
  | some s =>
      if s.gen = h.gen then
        match s.val with
        | some v =>
            some ((f v).1, ⟨q.slots.set h.idx ⟨s.gen, some (f v).2⟩, q.freeList⟩)
        | none => none
      else none
  | none => none

/-- Well-formedness of the slab: free-list indices are in range, point at
vacant slots, and are pairwise distinct. -/
def Queue.WF (q : Queue) : Prop :=
  (∀ i ∈ q.freeList, i < q.slots.length) ∧
  (∀ i ∈ q.freeList, ((q.slots[i]?).getD ⟨0, none⟩).val = none) ∧
  q.freeList.Nodup

instance (q : Queue) : Decidable q.WF := by
  unfold Queue.WF; infer_instance

example : Queue.empty.WF := by decide

theorem Queue.insert_snd (q : Queue) (v : Val) : (q.insert v).2 = q.nextRef := by
  obtain ⟨slots, fl⟩ := q
  cases fl <;> rfl

theorem Queue.insert_wf {q : Queue} (w : q.WF) (v : Val) : (q.insert v).1.WF := by
  obtain ⟨slots, fl⟩ := q
  obtain ⟨w1, w2, w3⟩ := w
  cases fl with
  | nil =>
      refine ⟨?_, ?_, ?_⟩ <;> simp [Queue.insert]
  | cons i rest =>
      have hirest : i ∉ rest := (List.nodup_cons.mp w3).1
      refine ⟨?_, ?_, ?_⟩
      · intro j hj
        simpa [Queue.insert] using w1 j (List.mem_cons_of_mem _ hj)
      · intro j hj
        have hij : i ≠ j := by rintro rfl; exact hirest hj
        have := w2 j (List.mem_cons_of_mem _ hj)
        simpa [Queue.insert, List.getElem?_set_ne hij] using this
      · exact (List.nodup_cons.mp w3).2

theorem Queue.borrow_insert_self {q : Queue} (w : q.WF) (v : Val) :
    (q.insert v).1.borrow (q.insert v).2 = some v := by
  obtain ⟨slots, fl⟩ := q
  obtain ⟨w1, w2, w3⟩ := w
  cases fl with
  | nil =>
      simp [Queue.insert, Queue.borrow, List.getElem?_concat_length]
  | cons i rest =>
      have hi : i < slots.length := w1 i (List.mem_cons_self _ _)
      simp [Queue.insert, Queue.borrow, List.getElem?_set_self hi]

theorem Queue.live_nextRef {q : Queue} (w : q.WF) : q.live q.nextRef = false := by
  obtain ⟨slots, fl⟩ := q
  obtain ⟨w1, w2, w3⟩ := w
  cases fl with
  | nil =>
      simp [Queue.nextRef, Queue.live, Queue.borrow]
  | cons i rest =>
      have hi : i < slots.length := w1 i (List.mem_cons_self _ _)
      have hv := w2 i (List.mem_cons_self _ _)
      rcases hs : slots[i]? with _ | s
      · simp [List.getElem?_eq_none_iff] at hs; omega
      · simp [Queue.nextRef, Queue.live, Queue.borrow, hs]
        simp [hs] at hv
        exact hv

theorem Queue.borrow_insert_of_live {q : Queue} (w : q.WF) (v : Val)
    {h : NodeRef} (hl : q.live h = true) :
    (q.insert v).1.borrow h = q.borrow h := by
  obtain ⟨slots, fl⟩ := q
  obtain ⟨w1, w2, w3⟩ := w
  rcases hs : slots[h.idx]? with _ | s
  · simp [Queue.live, Queue.borrow, hs] at hl
  · have hlen : h.idx < slots.length := by
      rcases Nat.lt_or_ge h.idx slots.length with h' | h'
      · exact h'
      · rw [List.getElem?_eq_none h'] at hs; cases hs
    cases fl with
    | nil =>
        simp [Queue.insert, Queue.borrow, List.getElem?_append_left hlen]
    | cons i rest =>
        have hne : i ≠ h.idx := by
          intro heq
          have hv := w2 i (List.mem_cons_self _ _)
          rw [heq] at hv
          simp only [hs, Option.getD_some] at hv
          simp [Queue.live, Queue.borrow, hs, hv] at hl
        simp [Queue.insert, Queue.borrow, List.getElem?_set_ne hne]

theorem Queue.live_insert_of_live {q : Queue} (w : q.WF) (v : Val)
    {h : NodeRef} (hl : q.live h = true) :
    (q.insert v).1.live h = true := by
  simp [Queue.live, Queue.borrow_insert_of_live w v hl]
  simpa [Queue.live] using hl

theorem Queue.live_insert_self {q : Queue} (w : q.WF) (v : Val) :
    (q.insert v).1.live ((q.insert v).2) = true := by
  simp [Queue.live, Queue.borrow_insert_self w v]

/-- The store of capacity-heuristic cells.  Each `hyristic!` call site in
`copy.rs` declares a static estimator cell; the store maps a cell id to
the cell's current value (`GUESS` / `GUESS2`). -/
def EstStore : Type := Nat → Nat

/-- `update_guess` / `update_owned`: overwrite one estimator cell. -/
def setEst (e : EstStore) (i v : Nat) : EstStore :=
  fun j => if j = i then v else e j

/-- A scope of `copy.rs` (`pub struct Scope`): the handles it pushed into
its owned-list (`owns`), its child scopes in creation order (`children`),
the bytes bump-allocated in its region (`allocatedBytes`), the estimator
cells its `update` / `update_owned` function pointers write
(`updateId` / `updateOwnedId`), and the capacities it was created with
(`Bump::with_capacity(H::guess_allocation())`,
`Vec::with_capacity(H2::guess_owned())`). -/
inductive ScopeM where
  | mk (owns : List NodeRef) (children : List ScopeM) (allocatedBytes : Nat)
      (updateId updateOwnedId : Nat) (bytesCap ownsCap : Nat)

def ScopeM.owns : ScopeM → List NodeRef
  | .mk o _ _ _ _ _ _ => o

def ScopeM.children : ScopeM → List ScopeM
  | .mk _ c _ _ _ _ _ => c

def ScopeM.allocatedBytes : ScopeM → Nat
  | .mk _ _ b _ _ _ _ => b

def ScopeM.updateId : ScopeM → Nat
  | .mk _ _ _ u _ _ _ => u

def ScopeM.updateOwnedId : ScopeM → Nat
  | .mk _ _ _ _ u _ _ => u

def ScopeM.bytesCap : ScopeM → Nat
  | .mk _ _ _ _ _ b _ => b

def ScopeM.ownsCap : ScopeM → Nat
  | .mk _ _ _ _ _ _ o => o

/-- `Scope::new::<H, H2>` / the scope built at the start of
`Scope::child::<H, H2, O>`: empty owned-list and child list, its
capacities read from the heuristic cells `hB` (`H::guess_allocation`)
and `hO` (`H2::guess_owned`). -/
def freshScope (hB hO : Nat) (est : EstStore) : ScopeM :=
  .mk [] [] 0 hB hO (est hB) (est hO)

/-- Append a handle to the scope's owned-list
(`self.owns.borrow_mut().push(raw)`) and account the bump-allocated
bytes of the stored value. -/
def ScopeM.pushOwn (s : ScopeM) (h : NodeRef) (size : Nat) : ScopeM :=
  .mk (s.owns ++ [h]) s.children (s.allocatedBytes + size) s.updateId
    s.updateOwnedId s.bytesCap s.ownsCap

/-- Append a finished child scope to the parent's child list
(`self.children.borrow_mut().get_or_insert(..).push(scope)`). -/
def ScopeM.addChild (s : ScopeM) (c : ScopeM) : ScopeM :=
  .mk s.owns (s.children ++ [c]) s.allocatedBytes s.updateId
    s.updateOwnedId s.bytesCap s.ownsCap

/-- `Scope::state`: bump-allocate the value (accounting `size` bytes),
insert a destructor-bearing cell into the runtime's slot table, push the
returned handle onto the scope's owned-list, and return the handle the
fresh `State<T>` wraps. -/
def Scope.state (q : Queue) (s : ScopeM) (v : Val) (size : Nat) :
    Queue × ScopeM × NodeRef :=
  let p := q.insert v
  (p.1, s.pushOwn p.2 size, p.2)

/-- `Scope::state_with`: like `Scope.state` but through the slot table's
self-referential insertion primitive — the constructor receives the
not-yet-populated handle. -/
def Scope.stateWith (q : Queue) (s : ScopeM) (ctor : NodeRef → Val)
    (size : Nat) : Queue × ScopeM × NodeRef :=
  let p := q.insertWith ctor
  (p.1, s.pushOwn p.2 size, p.2)

/-- A build program: the sequence of core calls a `build_fn` closure
performs against its scope.  `state` and `stateWith` carry the byte size
the bump allocator charges for the value; `child` carries the estimator
cell ids of the `child_scope!` call site and the body run against the
child scope. -/
inductive BuildProg where
  | nil : BuildProg
  | state (v : Val) (size : Nat) (rest : BuildProg) : BuildProg
  | stateWith (ctor : NodeRef → Val) (size : Nat) (rest : BuildProg) : BuildProg
  | child (hB hO : Nat) (body : BuildProg) (rest : BuildProg) : BuildProg

/-- Run a build program against a scope.  Returns the final queue,
estimator store and scope, the handles inserted anywhere during the run
(in insertion order), and the child scopes created directly under the
scope (in creation order).  The `child` case mirrors
`Scope::child::<H, H2, O>`: build a fresh scope sized from the call
site's cells, run the body, then `(scope.update)(allocated_bytes)` into
the call site's bytes cell and `(self.update_owned)(owns.len())` into
the *enclosing* scope's owned-count cell, then push the child. -/
def runProg : BuildProg → Queue → EstStore → ScopeM →
    Queue × EstStore × ScopeM × List NodeRef × List ScopeM
  | .nil, q, est, s => (q, est, s, [], [])
  | .state v size rest, q, est, s =>
      let p := Scope.state q s v size
      let r := runProg rest p.1 est p.2.1
      (r.1, r.2.1, r.2.2.1, p.2.2 :: r.2.2.2.1, r.2.2.2.2)
  | .stateWith ctor size rest, q, est, s =>
      let p := Scope.stateWith q s ctor size
      let r := runProg rest p.1 est p.2.1
      (r.1, r.2.1, r.2.2.1, p.2.2 :: r.2.2.2.1, r.2.2.2.2)
  | .child hB hO body rest, q, est, s =>
      let b := runProg body q est (freshScope hB hO est)
      let c := b.2.2.1
      let est2 := setEst b.2.1 hB c.allocatedBytes
      let est3 := setEst est2 s.updateOwnedId c.owns.length
      let r := runProg rest b.1 est3 (s.addChild c)
      (r.1, r.2.1, r.2.2.1, b.2.2.2.1 ++ r.2.2.2.1, c :: r.2.2.2.2)

/-- Final queue of a run. -/
def buildQueue (p : BuildProg) (q : Queue) (est : EstStore) (s : ScopeM) :
    Queue :=
  (runProg p q est s).1

/-- Final estimator store of a run. -/
def buildEst (p : BuildProg) (q : Queue) (est : EstStore) (s : ScopeM) :
    EstStore :=
  (runProg p q est s).2.1

/-- Final scope of a run. -/
def buildScope (p : BuildProg) (q : Queue) (est : EstStore) (s : ScopeM) :
    ScopeM :=
  (runProg p q est s).2.2.1

/-- All handles inserted during a run, in insertion order. -/
def buildHandles (p : BuildProg) (q : Queue) (est : EstStore) (s : ScopeM) :
    List NodeRef :=
  (runProg p q est s).2.2.2.1

/-- The child scopes created directly under the scope, in creation
order. -/
def buildKids (p : BuildProg) (q : Queue) (est : EstStore) (s : ScopeM) :
    List ScopeM :=
  (runProg p q est s).2.2.2.2

/-- Events of the teardown of a scope tree, in execution order. -/
inductive Ev where
  | removeH (h : NodeRef)
  | reportBytes (cell : Nat) (n : Nat)
  | reportOwned (cell : Nat) (n : Nat)
  | releaseBump
deriving DecidableEq, Repr

mutual
/-- `impl Drop for Scope`, as an event trace: first every owned handle is
removed from the slot table (each removal runs the destructor), then the
allocated bytes are reported to the scope's bytes-estimator cell and the
owned-handle count to its owned-count cell (the `Drop::drop` body); then
the struct fields drop in declaration order — the child list (each child
scope's own drop protocol, front to back) before the bump allocator,
whose drop releases the bump region as a single block. -/
def dropTrace : ScopeM → List Ev
  | .mk o cs b uI uO _ _ =>
      o.map Ev.removeH ++
        [Ev.reportBytes uI b, Ev.reportOwned uO o.length] ++
        dropTraces cs ++ [Ev.releaseBump]

/-- Drop of a `Vec<Scope>`: elements drop front to back. -/
def dropTraces : List ScopeM → List Ev
  | [] => []
  | c :: cs => dropTrace c ++ dropTraces cs
end

@[simp] theorem ScopeM.owns_mk (o : List NodeRef) (cs : List ScopeM)
    (b uI uO bc oc : Nat) : (ScopeM.mk o cs b uI uO bc oc).owns = o := rfl

@[simp] theorem ScopeM.children_mk (o : List NodeRef) (cs : List ScopeM)
    (b uI uO bc oc : Nat) : (ScopeM.mk o cs b uI uO bc oc).children = cs := rfl

@[simp] theorem ScopeM.allocatedBytes_mk (o : List NodeRef) (cs : List ScopeM)
    (b uI uO bc oc : Nat) : (ScopeM.mk o cs b uI uO bc oc).allocatedBytes = b := rfl

@[simp] theorem ScopeM.updateId_mk (o : List NodeRef) (cs : List ScopeM)
    (b uI uO bc oc : Nat) : (ScopeM.mk o cs b uI uO bc oc).updateId = uI := rfl

@[simp] theorem ScopeM.updateOwnedId_mk (o : List NodeRef) (cs : List ScopeM)
    (b uI uO bc oc : Nat) : (ScopeM.mk o cs b uI uO bc oc).updateOwnedId = uO := rfl

@[simp] theorem ScopeM.bytesCap_mk (o : List NodeRef) (cs : List ScopeM)
    (b uI uO bc oc : Nat) : (ScopeM.mk o cs b uI uO bc oc).bytesCap = bc := rfl

@[simp] theorem ScopeM.ownsCap_mk (o : List NodeRef) (cs : List ScopeM)
    (b uI uO bc oc : Nat) : (ScopeM.mk o cs b uI uO bc oc).ownsCap = oc := rfl

@[simp] theorem ScopeM.owns_pushOwn (s : ScopeM) (h : NodeRef) (n : Nat) :
    (s.pushOwn h n).owns = s.owns ++ [h] := rfl

@[simp] theorem ScopeM.children_pushOwn (s : ScopeM) (h : NodeRef) (n : Nat) :
    (s.pushOwn h n).children = s.children := rfl

@[simp] theorem ScopeM.allocatedBytes_pushOwn (s : ScopeM) (h : NodeRef) (n : Nat) :
    (s.pushOwn h n).allocatedBytes = s.allocatedBytes + n := rfl

@[simp] theorem ScopeM.updateId_pushOwn (s : ScopeM) (h : NodeRef) (n : Nat) :
    (s.pushOwn h n).updateId = s.updateId := rfl

@[simp] theorem ScopeM.updateOwnedId_pushOwn (s : ScopeM) (h : NodeRef) (n : Nat) :
    (s.pushOwn h n).updateOwnedId = s.updateOwnedId := rfl

@[simp] theorem ScopeM.owns_addChild (s c : ScopeM) :
    (s.addChild c).owns = s.owns := rfl

@[simp] theorem ScopeM.children_addChild (s c : ScopeM) :
    (s.addChild c).children = s.children ++ [c] := rfl

@[simp] theorem ScopeM.allocatedBytes_addChild (s c : ScopeM) :
    (s.addChild c).allocatedBytes = s.allocatedBytes := rfl

@[simp] theorem ScopeM.updateId_addChild (s c : ScopeM) :
    (s.addChild c).updateId = s.updateId := rfl

@[simp] theorem ScopeM.updateOwnedId_addChild (s c : ScopeM) :
    (s.addChild c).updateOwnedId = s.updateOwnedId := rfl

mutual
/-- How many times a handle occurs in the owned-lists across a scope
tree. -/
def ownsCount : ScopeM → NodeRef → Nat
  | .mk o cs _ _ _ _ _, h => o.count h + ownsCountList cs h

def ownsCountList : List ScopeM → NodeRef → Nat
  | [], _ => 0
  | c :: cs, h => ownsCount c h + ownsCountList cs h
end

theorem dropTraces_append (l₁ l₂ : List ScopeM) :
    dropTraces (l₁ ++ l₂) = dropTraces l₁ ++ dropTraces l₂ := by
  induction l₁ with
  | nil => simp [dropTraces]
  | cons c cs ih => simp [dropTraces, ih]

theorem ownsCountList_append (l₁ l₂ : List ScopeM) (h : NodeRef) :
    ownsCountList (l₁ ++ l₂) h = ownsCountList l₁ h + ownsCountList l₂ h := by
  induction l₁ with
  | nil => simp [ownsCountList]
  | cons c cs ih => simp [ownsCountList, ih]; omega

/-- A scope tree removes each handle from the slot table exactly as often
as the handle occurs in the tree's owned-lists. -/
def TraceOk (s : ScopeM) : Prop :=
  ∀ h, (dropTrace s).count (Ev.removeH h) = ownsCount s h

theorem count_removeH_map (l : List NodeRef) (h : NodeRef) :
    (l.map Ev.removeH).count (Ev.removeH h) = l.count h :=
  List.count_map_of_injective l Ev.removeH (fun _ _ e => by cases e; rfl) h

theorem traceOk_fresh (hB hO : Nat) (est : EstStore) :
    TraceOk (freshScope hB hO est) := by
  intro h
  simp [freshScope, dropTrace, dropTraces, ownsCount, ownsCountList]

theorem traceOk_pushOwn {s : ScopeM} (t : TraceOk s) (h₀ : NodeRef) (n : Nat) :
    TraceOk (s.pushOwn h₀ n) := by
  intro h
  obtain ⟨o, cs, b, uI, uO, bc, oc⟩ := s
  have := t h
  by_cases hh : h₀ = h <;>
    simp [ScopeM.pushOwn, dropTrace, ownsCount, count_removeH_map,
      List.count_append, List.count_cons, hh] at this ⊢ <;>
    omega

theorem traceOk_addChild {s c : ScopeM} (ts : TraceOk s) (tc : TraceOk c) :
    TraceOk (s.addChild c) := by
  intro h
  obtain ⟨o, cs, b, uI, uO, bc, oc⟩ := s
  have hs := ts h
  have hc := tc h
  simp [ScopeM.addChild, dropTrace, dropTraces_append, dropTraces,
    ownsCount, ownsCountList_append, ownsCountList, count_removeH_map,
    List.count_append] at hs ⊢
  omega

@[simp] theorem buildQueue_nil (q : Queue) (est : EstStore) (s : ScopeM) :
    buildQueue .nil q est s = q := rfl

@[simp] theorem buildEst_nil (q : Queue) (est : EstStore) (s : ScopeM) :
    buildEst .nil q est s = est := rfl

@[simp] theorem buildScope_nil (q : Queue) (est : EstStore) (s : ScopeM) :
    buildScope .nil q est s = s := rfl

@[simp] theorem buildHandles_nil (q : Queue) (est : EstStore) (s : ScopeM) :
    buildHandles .nil q est s = [] := rfl

@[simp] theorem buildKids_nil (q : Queue) (est : EstStore) (s : ScopeM) :
    buildKids .nil q est s = [] := rfl

theorem buildQueue_state (v : Val) (n : Nat) (rest : BuildProg) (q : Queue)
    (est : EstStore) (s : ScopeM) :
    buildQueue (.state v n rest) q est s =
      buildQueue rest (q.insert v).1 est (s.pushOwn (q.insert v).2 n) := rfl

theorem buildEst_state (v : Val) (n : Nat) (rest : BuildProg) (q : Queue)
    (est : EstStore) (s : ScopeM) :
    buildEst (.state v n rest) q est s =
      buildEst rest (q.insert v).1 est (s.pushOwn (q.insert v).2 n) := rfl

theorem buildScope_state (v : Val) (n : Nat) (rest : BuildProg) (q : Queue)
    (est : EstStore) (s : ScopeM) :
    buildScope (.state v n rest) q est s =
      buildScope rest (q.insert v).1 est (s.pushOwn (q.insert v).2 n) := rfl

theorem buildHandles_state (v : Val) (n : Nat) (rest : BuildProg) (q : Queue)
    (est : EstStore) (s : ScopeM) :
    buildHandles (.state v n rest) q est s =
      (q.insert v).2 ::
        buildHandles rest (q.insert v).1 est (s.pushOwn (q.insert v).2 n) := rfl

theorem buildKids_state (v : Val) (n : Nat) (rest : BuildProg) (q : Queue)
    (est : EstStore) (s : ScopeM) :
    buildKids (.state v n rest) q est s =
      buildKids rest (q.insert v).1 est (s.pushOwn (q.insert v).2 n) := rfl

theorem buildQueue_stateWith (ctor : NodeRef → Val) (n : Nat)
    (rest : BuildProg) (q : Queue) (est : EstStore) (s : ScopeM) :
    buildQueue (.stateWith ctor n rest) q est s =
      buildQueue rest (q.insertWith ctor).1 est
        (s.pushOwn (q.insertWith ctor).2 n) := rfl

theorem buildEst_stateWith (ctor : NodeRef → Val) (n : Nat)
    (rest : BuildProg) (q : Queue) (est : EstStore) (s : ScopeM) :
    buildEst (.stateWith ctor n rest) q est s =
      buildEst rest (q.insertWith ctor).1 est
        (s.pushOwn (q.insertWith ctor).2 n) := rfl

theorem buildScope_stateWith (ctor : NodeRef → Val) (n : Nat)
    (rest : BuildProg) (q : Queue) (est : EstStore) (s : ScopeM) :
    buildScope (.stateWith ctor n rest) q est s =
      buildScope rest (q.insertWith ctor).1 est
        (s.pushOwn (q.insertWith ctor).2 n) := rfl

theorem buildHandles_stateWith (ctor : NodeRef → Val) (n : Nat)
    (rest : BuildProg) (q : Queue) (est : EstStore) (s : ScopeM) :
    buildHandles (.stateWith ctor n rest) q est s =
      (q.insertWith ctor).2 ::
        buildHandles rest (q.insertWith ctor).1 est
          (s.pushOwn (q.insertWith ctor).2 n) := rfl

theorem buildKids_stateWith (ctor : NodeRef → Val) (n : Nat)
    (rest : BuildProg) (q : Queue) (est : EstStore) (s : ScopeM) :
    buildKids (.stateWith ctor n rest) q est s =
      buildKids rest (q.insertWith ctor).1 est
        (s.pushOwn (q.insertWith ctor).2 n) := rfl

/-- The estimator store after the `child` call of `copy.rs` finishes:
the child's allocated bytes go to the call site's bytes cell
(`(scope.update)(scope.allocator.allocated_bytes())`) and the child's
owned-handle count goes to the *enclosing* scope's owned-count cell
(`(self.update_owned)(scope.owns.borrow().len())`). -/
def childEst (hB : Nat) (q : Queue) (est : EstStore) (s : ScopeM)
    (body : BuildProg) : EstStore :=
  setEst
    (setEst (buildEst body q est (freshScope hB s.updateOwnedId est)) hB
      (buildScope body q est (freshScope hB s.updateOwnedId est)).allocatedBytes)
    s.updateOwnedId
    (buildScope body q est (freshScope hB s.updateOwnedId est)).owns.length

theorem buildQueue_child (hB hO : Nat) (body rest : BuildProg) (q : Queue)
    (est : EstStore) (s : ScopeM) :
    buildQueue (.child hB hO body rest) q est s =
      buildQueue rest (buildQueue body q est (freshScope hB hO est))
        (setEst
          (setEst (buildEst body q est (freshScope hB hO est)) hB
            (buildScope body q est (freshScope hB hO est)).allocatedBytes)
          s.updateOwnedId
          (buildScope body q est (freshScope hB hO est)).owns.length)
        (s.addChild (buildScope body q est (freshScope hB hO est))) := rfl

theorem buildEst_child (hB hO : Nat) (body rest : BuildProg) (q : Queue)
    (est : EstStore) (s : ScopeM) :
    buildEst (.child hB hO body rest) q est s =
      buildEst rest (buildQueue body q est (freshScope hB hO est))
        (setEst
          (setEst (buildEst body q est (freshScope hB hO est)) hB
            (buildScope body q est (freshScope hB hO est)).allocatedBytes)
          s.updateOwnedId
          (buildScope body q est (freshScope hB hO est)).owns.length)
        (s.addChild (buildScope body q est (freshScope hB hO est))) := rfl

theorem buildScope_child (hB hO : Nat) (body rest : BuildProg) (q : Queue)
    (est : EstStore) (s : ScopeM) :
    buildScope (.child hB hO body rest) q est s =
      buildScope rest (buildQueue body q est (freshScope hB hO est))
        (setEst
          (setEst (buildEst body q est (freshScope hB hO est)) hB
            (buildScope body q est (freshScope hB hO est)).allocatedBytes)
          s.updateOwnedId
          (buildScope body q est (freshScope hB hO est)).owns.length)
        (s.addChild (buildScope body q est (freshScope hB hO est))) := rfl

theorem buildHandles_child (hB hO : Nat) (body rest : BuildProg) (q : Queue)
    (est : EstStore) (s : ScopeM) :
    buildHandles (.child hB hO body rest) q est s =
      buildHandles body q est (freshScope hB hO est) ++
        buildHandles rest (buildQueue body q est (freshScope hB hO est))
          (setEst
            (setEst (buildEst body q est (freshScope hB hO est)) hB
              (buildScope body q est (freshScope hB hO est)).allocatedBytes)
            s.updateOwnedId
            (buildScope body q est (freshScope hB hO est)).owns.length)
          (s.addChild (buildScope body q est (freshScope hB hO est))) := rfl

theorem buildKids_child (hB hO : Nat) (body rest : BuildProg) (q : Queue)
    (est : EstStore) (s : ScopeM) :
    buildKids (.child hB hO body rest) q est s =
      buildScope body q est (freshScope hB hO est) ::
        buildKids rest (buildQueue body q est (freshScope hB hO est))
          (setEst
            (setEst (buildEst body q est (freshScope hB hO est)) hB
              (buildScope body q est (freshScope hB hO est)).allocatedBytes)
            s.updateOwnedId
            (buildScope body q est (freshScope hB hO est)).owns.length)
          (s.addChild (buildScope body q est (freshScope hB hO est))) := rfl

theorem runProg_traceOk (p : BuildProg) :
    ∀ (q : Queue) (est : EstStore) (s : ScopeM), TraceOk s →
      TraceOk (buildScope p q est s) := by
  induction p with
  | nil => intro q est s ts; simpa using ts
  | state v size rest ih =>
      intro q est s ts
      rw [buildScope_state]
      exact ih _ _ _ (traceOk_pushOwn ts _ _)
  | stateWith ctor size rest ih =>
      intro q est s ts
      rw [buildScope_stateWith]
      exact ih _ _ _ (traceOk_pushOwn ts _ _)
  | child hB hO body rest ihb ihr =>
      intro q est s ts
      rw [buildScope_child]
      exact ihr _ _ _ (traceOk_addChild ts (ihb _ _ _ (traceOk_fresh _ _ _)))

theorem ownsCount_pushOwn (s : ScopeM) (h₀ h : NodeRef) (n : Nat) :
    ownsCount (s.pushOwn h₀ n) h = ownsCount s h + [h₀].count h := by
  obtain ⟨o, cs, b, uI, uO, bc, oc⟩ := s
  simp [ScopeM.pushOwn, ownsCount, List.count_append]
  omega

theorem ownsCount_addChild (s c : ScopeM) (h : NodeRef) :
    ownsCount (s.addChild c) h = ownsCount s h + ownsCount c h := by
  obtain ⟨o, cs, b, uI, uO, bc, oc⟩ := s
  simp [ScopeM.addChild, ownsCount, ownsCountList_append, ownsCountList]
  omega

theorem ownsCount_fresh (hB hO : Nat) (est : EstStore) (h : NodeRef) :
    ownsCount (freshScope hB hO est) h = 0 := by
  simp [freshScope, ownsCount, ownsCountList]

theorem runProg_ownsCount (p : BuildProg) :
    ∀ (q : Queue) (est : EstStore) (s : ScopeM) (h : NodeRef),
      ownsCount (buildScope p q est s) h =
        ownsCount s h + (buildHandles p q est s).count h := by
  induction p with
  | nil => intro q est s h; simp
  | state v size rest ih =>
      intro q est s h
      rw [buildScope_state, buildHandles_state, ih, ownsCount_pushOwn]
      by_cases hh : (q.insert v).2 = h <;>
        simp [List.count_cons, hh] <;> omega
  | stateWith ctor size rest ih =>
      intro q est s h
      rw [buildScope_stateWith, buildHandles_stateWith, ih, ownsCount_pushOwn]
      by_cases hh : (q.insertWith ctor).2 = h <;>
        simp [List.count_cons, hh] <;> omega
  | child hB hO body rest ihb ihr =>
      intro q est s h
      rw [buildScope_child, buildHandles_child, ihr, ownsCount_addChild,
        ihb, ownsCount_fresh, List.count_append]
      omega

theorem Queue.live_of_borrow_eq {q q' : Queue} {h : NodeRef}
    (e : q'.borrow h = q.borrow h) (hl : q.live h = true) :
    q'.live h = true := by
  simp [Queue.live] at hl ⊢
  rw [e]; exact hl

theorem runProg_queue (p : BuildProg) :
    ∀ (q : Queue) (est : EstStore) (s : ScopeM), q.WF →
      (buildQueue p q est s).WF ∧
      (∀ h, q.live h = true → (buildQueue p q est s).borrow h = q.borrow h) ∧
      (∀ h ∈ buildHandles p q est s, q.live h = false) ∧
      (∀ h ∈ buildHandles p q est s, (buildQueue p q est s).live h = true) ∧
      (buildHandles p q est s).Nodup := by
  induction p with
  | nil =>
      intro q est s w
      exact ⟨w, fun h _ => rfl, by simp, by simp, by simp⟩
  | state v size rest ih =>
      intro q est s w
      obtain ⟨W, P, F, L, N⟩ :=
        ih (q.insert v).1 est (s.pushOwn (q.insert v).2 size)
          (Queue.insert_wf w v)
      rw [buildQueue_state, buildHandles_state]
      refine ⟨W, ?_, ?_, ?_, ?_⟩
      · intro h hl
        rw [P h (Queue.live_insert_of_live w v hl),
          Queue.borrow_insert_of_live w v hl]
      · intro h hm
        rcases List.mem_cons.mp hm with rfl | hm
        · rw [Queue.insert_snd]; exact Queue.live_nextRef w
        · rcases hq : q.live h with _ | _
          · rfl
          · have := Queue.live_insert_of_live w v hq
            rw [F h hm] at this
            cases this
      · intro h hm
        rcases List.mem_cons.mp hm with rfl | hm
        · exact Queue.live_of_borrow_eq (P _ (Queue.live_insert_self w v))
            (Queue.live_insert_self w v)
        · exact L h hm
      · refine List.nodup_cons.mpr ⟨?_, N⟩
        intro hm
        have h1 := F _ hm
        have h2 := Queue.live_insert_self w v
        rw [h1] at h2
        cases h2
  | stateWith ctor size rest ih =>
      intro q est s w
      obtain ⟨W, P, F, L, N⟩ :=
        ih (q.insertWith ctor).1 est (s.pushOwn (q.insertWith ctor).2 size)
          (Queue.insert_wf w (ctor q.nextRef))
      rw [buildQueue_stateWith, buildHandles_stateWith]
      simp only [Queue.insertWith] at W P F L N ⊢
      refine ⟨W, ?_, ?_, ?_, ?_⟩
      · intro h hl
        rw [P h (Queue.live_insert_of_live w (ctor q.nextRef) hl),
          Queue.borrow_insert_of_live w (ctor q.nextRef) hl]
      · intro h hm
        rcases List.mem_cons.mp hm with rfl | hm
        · rw [Queue.insert_snd]; exact Queue.live_nextRef w
        · rcases hq : q.live h with _ | _
          · rfl
          · have := Queue.live_insert_of_live w (ctor q.nextRef) hq
            rw [F h hm] at this
            cases this
      · intro h hm
        rcases List.mem_cons.mp hm with rfl | hm
        · exact Queue.live_of_borrow_eq
            (P _ (Queue.live_insert_self w (ctor q.nextRef)))
            (Queue.live_insert_self w (ctor q.nextRef))
        · exact L h hm
      · refine List.nodup_cons.mpr ⟨?_, N⟩
        intro hm
        have h1 := F _ hm
        have h2 := Queue.live_insert_self w (ctor q.nextRef)
        rw [h1] at h2
        cases h2
  | child hB hO body rest ihb ihr =>
      intro q est s w
      obtain ⟨Wb, Pb, Fb, Lb, Nb⟩ := ihb q est (freshScope hB hO est) w
      obtain ⟨Wr, Pr, Fr, Lr, Nr⟩ :=
        ihr (buildQueue body q est (freshScope hB hO est))
          (setEst
            (setEst (buildEst body q est (freshScope hB hO est)) hB
              (buildScope body q est (freshScope hB hO est)).allocatedBytes)
            s.updateOwnedId
            (buildScope body q est (freshScope hB hO est)).owns.length)
          (s.addChild (buildScope body q est (freshScope hB hO est))) Wb
      rw [buildQueue_child, buildHandles_child]
      refine ⟨Wr, ?_, ?_, ?_, ?_⟩
      · intro h hl
        have hl1 := Queue.live_of_borrow_eq (Pb h hl) hl
        rw [Pr h hl1, Pb h hl]
      · intro h hm
        rcases List.mem_append.mp hm with hm | hm
        · exact Fb h hm
        · rcases hq : q.live h with _ | _
          · rfl
          · have := Queue.live_of_borrow_eq (Pb h hq) hq
            rw [Fr h hm] at this
            cases this
      · intro h hm
        rcases List.mem_append.mp hm with hm | hm
        · exact Queue.live_of_borrow_eq (Pr h (Lb h hm)) (Lb h hm)
        · exact Lr h hm
      · refine List.nodup_append.mpr ⟨Nb, Nr, ?_⟩
        intro h hmb hmr
        have h1 := Lb h hmb
        have h2 := Fr h hmr
        rw [h1] at h2
        cases h2

@[simp] theorem ScopeM.bytesCap_pushOwn (s : ScopeM) (h : NodeRef) (n : Nat) :
    (s.pushOwn h n).bytesCap = s.bytesCap := rfl

@[simp] theorem ScopeM.ownsCap_pushOwn (s : ScopeM) (h : NodeRef) (n : Nat) :
    (s.pushOwn h n).ownsCap = s.ownsCap := rfl

@[simp] theorem ScopeM.bytesCap_addChild (s c : ScopeM) :
    (s.addChild c).bytesCap = s.bytesCap := rfl

@[simp] theorem ScopeM.ownsCap_addChild (s c : ScopeM) :
    (s.addChild c).ownsCap = s.ownsCap := rfl

/-- Total bytes a build program bump-allocates in its own scope
(child allocations land in the child's region, not the parent's). -/
def bytesOf : BuildProg → Nat
  | .nil => 0
  | .state _ n rest => n + bytesOf rest
  | .stateWith _ n rest => n + bytesOf rest
  | .child _ _ _ rest => bytesOf rest

/-- Number of handles a build program pushes into its own scope's
owned-list. -/
def ownedOf : BuildProg → Nat
  | .nil => 0
  | .state _ _ rest => 1 + ownedOf rest
  | .stateWith _ _ rest => 1 + ownedOf rest
  | .child _ _ _ rest => ownedOf rest

/-- Running a build program never changes the scope's estimator wiring or
creation-time capacities; its byte and owned-handle usage is determined
by the program alone; children accumulate behind the existing ones in
creation order. -/
theorem runProg_shape (p : BuildProg) :
    ∀ (q : Queue) (est : EstStore) (s : ScopeM),
      (buildScope p q est s).updateId = s.updateId ∧
      (buildScope p q est s).updateOwnedId = s.updateOwnedId ∧
      (buildScope p q est s).bytesCap = s.bytesCap ∧
      (buildScope p q est s).ownsCap = s.ownsCap ∧
      (buildScope p q est s).allocatedBytes = s.allocatedBytes + bytesOf p ∧
      (buildScope p q est s).owns.length = s.owns.length + ownedOf p ∧
      (buildScope p q est s).children = s.children ++ buildKids p q est s := by
  induction p with
  | nil => intro q est s; simp [bytesOf, ownedOf]
  | state v n rest ih =>
      intro q est s
      rw [buildScope_state, buildKids_state]
      obtain ⟨a, b, c, d, e, f, g⟩ :=
        ih (q.insert v).1 est (s.pushOwn (q.insert v).2 n)
      refine ⟨?_, ?_, ?_, ?_, ?_, ?_, ?_⟩ <;>
        simp [a, b, c, d, e, f, g, bytesOf, ownedOf] <;> omega
  | stateWith ctor n rest ih =>
      intro q est s
      rw [buildScope_stateWith, buildKids_stateWith]
      obtain ⟨a, b, c, d, e, f, g⟩ :=
        ih (q.insertWith ctor).1 est (s.pushOwn (q.insertWith ctor).2 n)
      refine ⟨?_, ?_, ?_, ?_, ?_, ?_, ?_⟩ <;>
        simp [a, b, c, d, e, f, g, bytesOf, ownedOf] <;> omega
  | child hB hO body rest ihb ihr =>
      intro q est s
      rw [buildScope_child, buildKids_child]
      obtain ⟨a, b, c, d, e, f, g⟩ :=
        ihr (buildQueue body q est (freshScope hB hO est))
          (setEst
            (setEst (buildEst body q est (freshScope hB hO est)) hB
              (buildScope body q est (freshScope hB hO est)).allocatedBytes)
            s.updateOwnedId
            (buildScope body q est (freshScope hB hO est)).owns.length)
          (s.addChild (buildScope body q est (freshScope hB hO est)))
      refine ⟨?_, ?_, ?_, ?_, ?_, ?_, ?_⟩ <;>
        simp [a, b, c, d, e, f, g, bytesOf, ownedOf]

/-- **C1.** Every value inserted into the slot table via `state` or
`state_with` during a build has its destructor invoked exactly once over
the table's lifetime: the handle ends up in exactly one scope's
owned-list across the whole scope tree (`ownsCount … = 1`), and the
teardown of the tree (the root scope's drop cascade, which completes no
later than the runtime's drop) contains exactly one removal event — the
removal that runs the destructor — for that handle, emitted by the
owning scope's own drop. -/
theorem c1_destructor_exactly_once (p : BuildProg) (q : Queue)
    (est : EstStore) (hB hO : Nat) (w : q.WF) (h : NodeRef)
    (hm : h ∈ buildHandles p q est (freshScope hB hO est)) :
    ownsCount (buildScope p q est (freshScope hB hO est)) h = 1 ∧
      (dropTrace (buildScope p q est (freshScope hB hO est))).count
        (Ev.removeH h) = 1 := by
  have hc := runProg_ownsCount p q est (freshScope hB hO est) h
  rw [ownsCount_fresh] at hc
  obtain ⟨-, -, -, -, N⟩ := runProg_queue p q est (freshScope hB hO est) w
  have h1 : (buildHandles p q est (freshScope hB hO est)).count h = 1 :=
    List.count_eq_one_of_mem N hm
  have h2 :=
    runProg_traceOk p q est (freshScope hB hO est) (traceOk_fresh hB hO est) h
  constructor
  · omega
  · rw [h2]; omega

/-- Concrete instance of `c1_destructor_exactly_once`: a root scope that
creates one state of its own and a child scope creating another; the
handle of the child's state is removed exactly once by the teardown. -/
theorem c1_destructor_exactly_once_witness :
    Queue.empty.WF ∧
      (⟨1, 0⟩ : NodeRef) ∈
        buildHandles
          (.state (Val.int 5) 4 (.child 0 1 (.state (Val.int 7) 4 .nil) .nil))
          Queue.empty (fun _ => 0) (freshScope 10 11 (fun _ => 0)) ∧
      (ownsCount
          (buildScope
            (.state (Val.int 5) 4 (.child 0 1 (.state (Val.int 7) 4 .nil) .nil))
            Queue.empty (fun _ => 0) (freshScope 10 11 (fun _ => 0)))
          ⟨1, 0⟩ = 1 ∧
        (dropTrace
            (buildScope
              (.state (Val.int 5) 4
                (.child 0 1 (.state (Val.int 7) 4 .nil) .nil))
              Queue.empty (fun _ => 0) (freshScope 10 11 (fun _ => 0)))).count
          (Ev.removeH ⟨1, 0⟩) = 1) :=
  ⟨by decide, by decide,
    c1_destructor_exactly_once _ Queue.empty (fun _ => 0) 10 11 (by decide)
      ⟨1, 0⟩ (by decide)⟩

@[simp] theorem freshScope_owns (hB hO : Nat) (est : EstStore) :
    (freshScope hB hO est).owns = [] := rfl

@[simp] theorem freshScope_children (hB hO : Nat) (est : EstStore) :
    (freshScope hB hO est).children = [] := rfl

@[simp] theorem freshScope_allocatedBytes (hB hO : Nat) (est : EstStore) :
    (freshScope hB hO est).allocatedBytes = 0 := rfl

@[simp] theorem freshScope_updateId (hB hO : Nat) (est : EstStore) :
    (freshScope hB hO est).updateId = hB := rfl

@[simp] theorem freshScope_updateOwnedId (hB hO : Nat) (est : EstStore) :
    (freshScope hB hO est).updateOwnedId = hO := rfl

@[simp] theorem freshScope_bytesCap (hB hO : Nat) (est : EstStore) :
    (freshScope hB hO est).bytesCap = est hB := rfl

@[simp] theorem freshScope_ownsCap (hB hO : Nat) (est : EstStore) :
    (freshScope hB hO est).ownsCap = est hO := rfl

theorem dropTrace_eq (s : ScopeM) :
    dropTrace s = s.owns.map Ev.removeH ++
      [Ev.reportBytes s.updateId s.allocatedBytes,
        Ev.reportOwned s.updateOwnedId s.owns.length] ++
      dropTraces s.children ++ [Ev.releaseBump] := by
  obtain ⟨o, cs, b, uI, uO, bc, oc⟩ := s
  simp [dropTrace]

theorem dropTrace_build (p : BuildProg) (q : Queue) (est : EstStore)
    (hB hO : Nat) :
    dropTrace (buildScope p q est (freshScope hB hO est)) =
      (buildScope p q est (freshScope hB hO est)).owns.map Ev.removeH ++
        [Ev.reportBytes hB
            (buildScope p q est (freshScope hB hO est)).allocatedBytes,
          Ev.reportOwned hO
            (buildScope p q est (freshScope hB hO est)).owns.length] ++
        dropTraces (buildKids p q est (freshScope hB hO est)) ++
        [Ev.releaseBump] := by
  obtain ⟨a, b, -, -, -, -, g⟩ := runProg_shape p q est (freshScope hB hO est)
  rw [dropTrace_eq, a, b, g]
  simp

/-- **C2 (amended).** The drop protocol of a scope built by running a
build program executes, in this exact order: (1) one slot-table removal
(destructor run) per handle of its owned-list; (2) the report of the
total allocated bytes to the scope's bytes-estimator cell; (3) the
report of the owned-handle count to the owned-count estimator cell;
then the child scopes' own drop protocols, in child-list order — which
is *creation* order (first created, first dropped), not
reverse-of-creation order; and finally (4) the release of the bump
region as a single block. -/
theorem c2_drop_protocol (p : BuildProg) (q : Queue) (est : EstStore)
    (hB hO : Nat) :
    dropTrace (buildScope p q est (freshScope hB hO est)) =
      (buildScope p q est (freshScope hB hO est)).owns.map Ev.removeH ++
        [Ev.reportBytes hB
            (buildScope p q est (freshScope hB hO est)).allocatedBytes,
          Ev.reportOwned hO
            (buildScope p q est (freshScope hB hO est)).owns.length] ++
        dropTraces (buildKids p q est (freshScope hB hO est)) ++
        [Ev.releaseBump] :=
  dropTrace_build p q est hB hO

/-- **C2, counterexample to the claim as stated.** In a root scope with
two child scopes — the first-created child owning handle `⟨0, 0⟩`, the
second-created child owning handle `⟨1, 0⟩` — the teardown removes the
first-created child's handle *before* the second-created child's.
"Reverse-of-creation order" would require the opposite. -/
theorem c2_drop_order_counterexample :
    ((dropTrace
          (buildScope
            (.child 0 1 (.state (Val.int 1) 4 .nil)
              (.child 2 3 (.state (Val.int 2) 4 .nil) .nil))
            Queue.empty (fun _ => 0) (freshScope 10 11 (fun _ => 0)))).indexOf
        (Ev.removeH ⟨0, 0⟩) <
      (dropTrace
          (buildScope
            (.child 0 1 (.state (Val.int 1) 4 .nil)
              (.child 2 3 (.state (Val.int 2) 4 .nil) .nil))
            Queue.empty (fun _ => 0) (freshScope 10 11 (fun _ => 0)))).indexOf
        (Ev.removeH ⟨1, 0⟩)) ∧
    ¬ ((dropTrace
          (buildScope
            (.child 0 1 (.state (Val.int 1) 4 .nil)
              (.child 2 3 (.state (Val.int 2) 4 .nil) .nil))
            Queue.empty (fun _ => 0) (freshScope 10 11 (fun _ => 0)))).indexOf
        (Ev.removeH ⟨1, 0⟩) <
      (dropTrace
          (buildScope
            (.child 0 1 (.state (Val.int 1) 4 .nil)
              (.child 2 3 (.state (Val.int 2) 4 .nil) .nil))
            Queue.empty (fun _ => 0) (freshScope 10 11 (fun _ => 0)))).indexOf
        (Ev.removeH ⟨0, 0⟩)) := by
  decide

/-- One entry of the notification log: either a write-back of a slot
value (the effect of a `with_mut` borrow) or the invocation of a
`Mapped` lens's `on_update` hook, identified by a tag. -/
inductive Note where
  | wrote (h : NodeRef)
  | updated (tag : Nat)
deriving DecidableEq, Repr

/-- `State::with` of `copy.rs`: checked borrow of the slot value, apply
the closure, return its result. -/
def State.withFn {α : Type} (q : Queue) (h : NodeRef) (f : Val → α) :
    Option α :=
  (q.borrow h).map f

/-- `State::with_mut` of `copy.rs`: checked mutable borrow; the closure
returns its result together with the mutated value; the write-back is
recorded in the notification log.  No update hook of any kind is
invoked. -/
def State.withMutFn {α : Type} (q : Queue) (log : List Note) (h : NodeRef)
    (f : Val → α × Val) : Option (α × Queue × List Note) :=
  (q.borrowMut h f).map (fun r => (r.1, r.2, log ++ [Note.wrote h]))

/-- `StateIO::set` default method: `self.with_mut(|x| *x = value)`. -/
def State.setFn (q : Queue) (log : List Note) (h : NodeRef) (v : Val) :
    Option (Unit × Queue × List Note) :=
  State.withMutFn q log h (fun _ => ((), v))

/-- `State::map` output, the `Mapped` lens of `copy.rs`: a base handle,
the read projection `f`, the write projection `f_mut` — modelled as a
lens getter/setter pair, the functional counterpart of a
`Fn(&mut T) -> &mut U` place projection — and the `on_update` hook,
modelled as appending its tag to the notification log. -/
structure Mapped where
  inner : NodeRef
  f : Val → Val
  fmutGet : Val → Val
  fmutPut : Val → Val → Val
  updateTag : Nat

/-- `Mapped`'s `with`: delegate to the base state's `with` composed with
the read projection. -/
def Mapped.withFn {α : Type} (m : Mapped) (q : Queue) (g : Val → α) :
    Option α :=
  State.withFn q m.inner (fun x => g (m.f x))

/-- `Mapped`'s `with_mut`: delegate to the base state's `with_mut`
composed with the write projection, then invoke the `on_update` hook,
and return the closure's result. -/
def Mapped.withMutFn {α : Type} (m : Mapped) (q : Queue) (log : List Note)
    (g : Val → α × Val) : Option (α × Queue × List Note) :=
  (State.withMutFn q log m.inner
      (fun x => ((g (m.fmutGet x)).1, m.fmutPut x (g (m.fmutGet x)).2))).map
    (fun r => (r.1, r.2.1, r.2.2 ++ [Note.updated m.updateTag]))

/-- `StateIO::set` default method on a `Mapped` lens. -/
def Mapped.setFn (m : Mapped) (q : Queue) (log : List Note) (v : Val) :
    Option (Unit × Queue × List Note) :=
  m.withMutFn q log (fun _ => ((), v))

/-- **C5.** `state(scope, value)` stores the value in a
destructor-bearing slot-table cell (readable through the returned
handle), records the returned handle at the end of the scope's
owned-list, charges the value's size to the scope's bump region, leaves
the child list alone, and returns exactly the inserted handle — so
`with(H, |v| *v)` on the returned handle yields the value back. -/
theorem c5_state_allocates_registers_returns (q : Queue) (s : ScopeM)
    (v : Val) (n : Nat) (w : q.WF) :
    (Scope.state q s v n).2.1.owns = s.owns ++ [(Scope.state q s v n).2.2] ∧
    (Scope.state q s v n).1.borrow (Scope.state q s v n).2.2 = some v ∧
    State.withFn (Scope.state q s v n).1 (Scope.state q s v n).2.2
        (fun x => x) = some v ∧
    (Scope.state q s v n).2.1.children = s.children ∧
    (Scope.state q s v n).2.1.allocatedBytes = s.allocatedBytes + n := by
  refine ⟨rfl, Queue.borrow_insert_self w v, ?_, rfl, rfl⟩
  simp [State.withFn, Scope.state, Queue.borrow_insert_self w v]

/-- Concrete instance of `c5_state_allocates_registers_returns`:
`state(S0, 42)` then `with(H, |v| *v)` returns `42`. -/
theorem c5_state_allocates_registers_returns_witness :
    Queue.empty.WF ∧
      ((Scope.state Queue.empty (freshScope 0 1 (fun _ => 0)) (Val.int 42)
            4).2.1.owns =
          (freshScope 0 1 (fun _ => 0)).owns ++
            [(Scope.state Queue.empty (freshScope 0 1 (fun _ => 0))
                (Val.int 42) 4).2.2] ∧
        (Scope.state Queue.empty (freshScope 0 1 (fun _ => 0)) (Val.int 42)
              4).1.borrow
            (Scope.state Queue.empty (freshScope 0 1 (fun _ => 0))
                (Val.int 42) 4).2.2 =
          some (Val.int 42) ∧
        State.withFn
            (Scope.state Queue.empty (freshScope 0 1 (fun _ => 0))
                (Val.int 42) 4).1
            (Scope.state Queue.empty (freshScope 0 1 (fun _ => 0))
                (Val.int 42) 4).2.2 (fun x => x) =
          some (Val.int 42) ∧
        (Scope.state Queue.empty (freshScope 0 1 (fun _ => 0)) (Val.int 42)
              4).2.1.children =
          (freshScope 0 1 (fun _ => 0)).children ∧
        (Scope.state Queue.empty (freshScope 0 1 (fun _ => 0)) (Val.int 42)
              4).2.1.allocatedBytes =
          (freshScope 0 1 (fun _ => 0)).allocatedBytes + 4) :=
  ⟨by decide,
    c5_state_allocates_registers_returns Queue.empty
      (freshScope 0 1 (fun _ => 0)) (Val.int 42) 4 (by decide)⟩

/-- **C6.** The handle `state_with(scope, constructor)` passes to the
constructor is exactly the handle of the `State` it returns (the slot
reserved before the constructor runs), so the constructor can use it
before construction completes; the cell ends up holding the constructor
applied to that very handle, and reading the cell back through the
returned handle yields that value — in particular a constructor that
stores its own handle round-trips. -/
theorem c6_state_with_self_handle (q : Queue) (s : ScopeM)
    (ctor : NodeRef → Val) (n : Nat) (w : q.WF) :
    (Scope.stateWith q s ctor n).2.2 = q.nextRef ∧
    (Scope.stateWith q s ctor n).1.borrow (Scope.stateWith q s ctor n).2.2 =
      some (ctor (Scope.stateWith q s ctor n).2.2) ∧
    State.withFn (Scope.stateWith q s ctor n).1
        (Scope.stateWith q s ctor n).2.2 (fun x => x) =
      some (ctor (Scope.stateWith q s ctor n).2.2) ∧
    (Scope.stateWith q s ctor n).2.1.owns =
      s.owns ++ [(Scope.stateWith q s ctor n).2.2] := by
  have h1 : (Scope.stateWith q s ctor n).2.2 = q.nextRef := by
    show (q.insert (ctor q.nextRef)).2 = q.nextRef
    exact Queue.insert_snd q _
  have h2 : (Scope.stateWith q s ctor n).1.borrow
      (Scope.stateWith q s ctor n).2.2 = some (ctor q.nextRef) :=
    Queue.borrow_insert_self w (ctor q.nextRef)
  rw [h1] at h2 ⊢
  refine ⟨rfl, h2, ?_, ?_⟩
  · simp [State.withFn, h2]
  · simp [Scope.stateWith, Queue.insertWith, Queue.insert_snd]

/-- Concrete instance of `c6_state_with_self_handle`: the constructor
stores the handle it receives inside the constructed value
(`ctor = Val.handle`); reading the cell back through the returned handle
yields that same handle. -/
theorem c6_state_with_self_handle_witness :
    Queue.empty.WF ∧
      ((Scope.stateWith Queue.empty (freshScope 0 1 (fun _ => 0)) Val.handle
            8).2.2 = Queue.empty.nextRef ∧
        (Scope.stateWith Queue.empty (freshScope 0 1 (fun _ => 0)) Val.handle
              8).1.borrow
            (Scope.stateWith Queue.empty (freshScope 0 1 (fun _ => 0))
                Val.handle 8).2.2 =
          some (Val.handle
            (Scope.stateWith Queue.empty (freshScope 0 1 (fun _ => 0))
                Val.handle 8).2.2) ∧
        State.withFn
            (Scope.stateWith Queue.empty (freshScope 0 1 (fun _ => 0))
                Val.handle 8).1
            (Scope.stateWith Queue.empty (freshScope 0 1 (fun _ => 0))
                Val.handle 8).2.2 (fun x => x) =
          some (Val.handle
            (Scope.stateWith Queue.empty (freshScope 0 1 (fun _ => 0))
                Val.handle 8).2.2) ∧
        (Scope.stateWith Queue.empty (freshScope 0 1 (fun _ => 0)) Val.handle
              8).2.1.owns =
          (freshScope 0 1 (fun _ => 0)).owns ++
            [(Scope.stateWith Queue.empty (freshScope 0 1 (fun _ => 0))
                Val.handle 8).2.2]) :=
  ⟨by decide,
    c6_state_with_self_handle Queue.empty (freshScope 0 1 (fun _ => 0))
      Val.handle 8 (by decide)⟩

/-- `Scope::child::<H, H2, O>` with an arbitrary build function returning
a result: create the child scope pre-sized from the call site's
estimator cells, run the build function on it, report the child's
allocated bytes to the call site's bytes cell and the child's owned
count to the enclosing scope's owned-count cell, append the child to the
parent's child list, and return the build function's result. -/
def Scope.child {α : Type} (hB hO : Nat) (q : Queue) (est : EstStore)
    (s : ScopeM) (f : Queue → EstStore → ScopeM → α × Queue × EstStore × ScopeM) :
    α × Queue × EstStore × ScopeM :=
  let c0 := freshScope hB hO est
  let r := f q est c0
  let c := r.2.2.2
  let est2 := setEst r.2.2.1 hB c.allocatedBytes
  let est3 := setEst est2 s.updateOwnedId c.owns.length
  (r.1, r.2.1, est3, s.addChild c)

/-- **C7.** `child(parent, build_fn)` creates a new child scope whose
bump region and owned-list are pre-sized by reading the child-capacity
heuristic cells, invokes the build function on that new (empty) scope,
appends the finished child to the parent's child list — keeping it
alive — and returns the build function's result; the evaluator's
`child` step agrees with this one-step description. -/
theorem c7_child_scope {α : Type} (hB hO : Nat) (q : Queue) (est : EstStore)
    (s : ScopeM) (body : BuildProg)
    (f : Queue → EstStore → ScopeM → α × Queue × EstStore × ScopeM) :
    (freshScope hB hO est).bytesCap = est hB ∧
    (freshScope hB hO est).ownsCap = est hO ∧
    (freshScope hB hO est).owns = [] ∧
    (freshScope hB hO est).children = [] ∧
    (Scope.child hB hO q est s f).1 = (f q est (freshScope hB hO est)).1 ∧
    (Scope.child hB hO q est s f).2.2.2.children =
      s.children ++ [(f q est (freshScope hB hO est)).2.2.2] ∧
    buildScope (.child hB hO body .nil) q est s =
      s.addChild (buildScope body q est (freshScope hB hO est)) ∧
    buildKids (.child hB hO body .nil) q est s =
      [buildScope body q est (freshScope hB hO est)] := by
  refine ⟨rfl, rfl, rfl, rfl, rfl, by simp [Scope.child], ?_, ?_⟩
  · rw [buildScope_child, buildScope_nil]
  · rw [buildKids_child, buildKids_nil]

theorem Queue.borrowMut_spec {α : Type} {q : Queue} {h : NodeRef} {v : Val}
    (hb : q.borrow h = some v) (f : Val → α × Val) :
    ∃ q', q.borrowMut h f = some ((f v).1, q') ∧
      q'.borrow h = some (f v).2 := by
  rcases hs : q.slots[h.idx]? with _ | s
  · simp [Queue.borrow, hs] at hb
  · by_cases hg : s.gen = h.gen
    · have hval : s.val = some v := by
        simpa [Queue.borrow, hs, hg] using hb
      have hlen : h.idx < q.slots.length := by
        rcases Nat.lt_or_ge h.idx q.slots.length with h' | h'
        · exact h'
        · rw [List.getElem?_eq_none h'] at hs; cases hs
      refine ⟨⟨q.slots.set h.idx ⟨s.gen, some (f v).2⟩, q.freeList⟩, ?_, ?_⟩
      · simp [Queue.borrowMut, hs, hg, hval]
      · simp [Queue.borrow, List.getElem?_set_self hlen, hg]
    · simp [Queue.borrow, hs, hg] at hb

/-- **C8.** For a lens `m = s.map(read_fn, write_fn, on_update_fn)` over
a live handle: `m.with(g)` equals the base state's `with` composed with
the read projection (it applies `g` to `read_fn` of the borrowed value
and returns `g`'s result); `m.with_mut(g)` produces exactly the queue
and result of the base state's `with_mut` composed with the write
projection, and then — after the mutation's write-back — invokes the
`on_update` hook, returning `g`'s result. -/
theorem c8_mapped_lens_composition (m : Mapped) (q : Queue) (w : Val)
    (log : List Note) (hb : q.borrow m.inner = some w) :
    (∀ {α : Type} (g : Val → α),
        m.withFn q g = some (g (m.f w)) ∧
        m.withFn q g = State.withFn q m.inner (fun x => g (m.f x))) ∧
    (∀ {α : Type} (g : Val → α × Val),
        ∃ q', m.withMutFn q log g =
            some ((g (m.fmutGet w)).1, q',
              (log ++ [Note.wrote m.inner]) ++ [Note.updated m.updateTag]) ∧
          State.withMutFn q log m.inner
              (fun x =>
                ((g (m.fmutGet x)).1, m.fmutPut x (g (m.fmutGet x)).2)) =
            some ((g (m.fmutGet w)).1, q', log ++ [Note.wrote m.inner]) ∧
          q'.borrow m.inner = some (m.fmutPut w (g (m.fmutGet w)).2)) := by
  constructor
  · intro α g
    constructor
    · simp [Mapped.withFn, State.withFn, hb]
    · rfl
  · intro α g
    obtain ⟨q', e1, e2⟩ := Queue.borrowMut_spec hb
      (fun x => ((g (m.fmutGet x)).1, m.fmutPut x (g (m.fmutGet x)).2))
    refine ⟨q', ?_, ?_, e2⟩
    · simp [Mapped.withMutFn, State.withMutFn, e1]
    · simp [State.withMutFn, e1]

/-- Number of `on_update`-hook invocations recorded in a notification
log. -/
def updateCount (log : List Note) : Nat :=
  log.countP (fun n => match n with | .updated _ => true | .wrote _ => false)

/-- **C10.** `State::with_mut` and `set` mutate the slot value but add no
update notification to the log (only the write-back record); a `Mapped`
lens's `with_mut` (and its derived `set`) are the only operations that
invoke the update hook — exactly once per call, recorded *after* the
write-projection mutation's write-back. -/
theorem c10_update_hook_only_mapped (q : Queue) (h : NodeRef) (v w uv : Val)
    (m : Mapped) (log : List Note) (hb : q.borrow h = some v)
    (hbm : q.borrow m.inner = some w) :
    (∀ {α : Type} (f : Val → α × Val), ∃ q₁,
        State.withMutFn q log h f =
          some ((f v).1, q₁, log ++ [Note.wrote h])) ∧
    (∃ q₂, State.setFn q log h uv = some ((), q₂, log ++ [Note.wrote h])) ∧
    updateCount (log ++ [Note.wrote h]) = updateCount log ∧
    (∀ {α : Type} (g : Val → α × Val), ∃ q₃,
        m.withMutFn q log g =
          some ((g (m.fmutGet w)).1, q₃,
            log ++ [Note.wrote m.inner, Note.updated m.updateTag])) ∧
    (∃ q₄, m.setFn q log uv =
        some ((), q₄,
          log ++ [Note.wrote m.inner, Note.updated m.updateTag])) ∧
    updateCount (log ++ [Note.wrote m.inner, Note.updated m.updateTag]) =
      updateCount log + 1 := by
  refine ⟨?_, ?_, ?_, ?_, ?_, ?_⟩
  · intro α f
    obtain ⟨q₁, e1, -⟩ := Queue.borrowMut_spec hb f
    exact ⟨q₁, by simp [State.withMutFn, e1]⟩
  · obtain ⟨q₂, e1, -⟩ := Queue.borrowMut_spec hb
      (fun _ : Val => ((), uv))
    exact ⟨q₂, by simp [State.setFn, State.withMutFn, e1]⟩
  · simp [updateCount]
  · intro α g
    obtain ⟨q₃, e1, -⟩ := Queue.borrowMut_spec hbm
      (fun x => ((g (m.fmutGet x)).1, m.fmutPut x (g (m.fmutGet x)).2))
    exact ⟨q₃, by simp [Mapped.withMutFn, State.withMutFn, e1]⟩
  · obtain ⟨q₄, e1, -⟩ := Queue.borrowMut_spec hbm
      (fun x : Val => (((), uv).1, m.fmutPut x ((), uv).2))
    exact ⟨q₄, by simp [Mapped.setFn, Mapped.withMutFn, State.withMutFn, e1]⟩
  · simp [updateCount]

/-- Witness input: a queue holding the pair `(1, 2)` in slot `⟨0, 0⟩`. -/
def pairQueue : Queue :=
  (Queue.empty.insert (Val.pair (Val.int 1) (Val.int 2))).1

/-- Witness input: a lens over slot `⟨0, 0⟩` projecting the first
component of a pair, with update tag `7`. -/
def fstLens : Mapped :=
  ⟨⟨0, 0⟩, fun x => match x with | .pair a _ => a | _ => x,
    fun x => match x with | .pair a _ => a | _ => x,
    fun x u => match x with | .pair _ b => .pair u b | _ => u, 7⟩

/-- Concrete instance of `c8_mapped_lens_composition`: through the
first-projection lens over the pair `(1, 2)`, `with` of the identity
returns the projected `1`, and `with_mut` returns the projected result
and appends the write-back and then the update notification. -/
theorem c8_mapped_lens_composition_witness :
    pairQueue.borrow fstLens.inner =
        some (Val.pair (Val.int 1) (Val.int 2)) ∧
      fstLens.withFn pairQueue (fun x => x) = some (Val.int 1) ∧
      ∃ q', fstLens.withMutFn pairQueue [] (fun x => (x, Val.int 9)) =
          some (Val.int 1, q', [Note.wrote ⟨0, 0⟩, Note.updated 7]) := by
  refine ⟨by decide, ?_, ?_⟩
  · have h := (c8_mapped_lens_composition fstLens pairQueue
        (Val.pair (Val.int 1) (Val.int 2)) [] (by decide)).1 (fun x : Val => x)
    rw [h.1]
    rfl
  · obtain ⟨q', e1, -, -⟩ := (c8_mapped_lens_composition fstLens pairQueue
        (Val.pair (Val.int 1) (Val.int 2)) [] (by decide)).2
      (fun x : Val => (x, Val.int 9))
    exact ⟨q', by simpa [fstLens] using e1⟩

/-- Concrete instance of `c10_update_hook_only_mapped`: `set` through the
plain state handle records only the write-back; `set` through the lens
records the write-back and then exactly one update notification. -/
theorem c10_update_hook_only_mapped_witness :
    pairQueue.borrow (⟨0, 0⟩ : NodeRef) =
        some (Val.pair (Val.int 1) (Val.int 2)) ∧
      (∃ q₂, State.setFn pairQueue [] ⟨0, 0⟩ (Val.int 5) =
          some ((), q₂, [Note.wrote ⟨0, 0⟩])) ∧
      ∃ q₄, fstLens.setFn pairQueue [] (Val.int 5) =
          some ((), q₄, [Note.wrote ⟨0, 0⟩, Note.updated 7]) := by
  refine ⟨by decide, ?_, ?_⟩
  · obtain ⟨-, h2, -⟩ := c10_update_hook_only_mapped pairQueue ⟨0, 0⟩
      (Val.pair (Val.int 1) (Val.int 2)) (Val.pair (Val.int 1) (Val.int 2))
      (Val.int 5) fstLens [] (by decide) (by decide)
    obtain ⟨q₂, e⟩ := h2
    exact ⟨q₂, by simpa using e⟩
  · obtain ⟨-, -, -, -, h5, -⟩ := c10_update_hook_only_mapped pairQueue ⟨0, 0⟩
      (Val.pair (Val.int 1) (Val.int 2)) (Val.pair (Val.int 1) (Val.int 2))
      (Val.int 5) fstLens [] (by decide) (by decide)
    obtain ⟨q₄, e⟩ := h5
    exact ⟨q₄, by simpa [fstLens] using e⟩

/-- Effect of one teardown event on the estimator cells: a report writes
its cell (`update_guess` / `update_owned`); removals and the bump
release leave the cells alone. -/
def estStep (est : EstStore) : Ev → EstStore
  | .reportBytes c n => setEst est c n
  | .reportOwned c n => setEst est c n
  | _ => est

/-- Apply a teardown trace to the estimator cells, in trace order. -/
def applyTraceEst (est : EstStore) (tr : List Ev) : EstStore :=
  tr.foldl estStep est

/-- Effect of one teardown event on the slot table: a removal removes
the handle (running its destructor); reports and the bump release leave
the table alone. -/
def queueStep (q : Queue) : Ev → Queue
  | .removeH h => (q.remove h).getD q
  | _ => q

/-- Apply a teardown trace to the slot table, in trace order. -/
def applyTraceQueue (q : Queue) (tr : List Ev) : Queue :=
  tr.foldl queueStep q

/-- The estimator cells a teardown trace writes. -/
def reportCells (tr : List Ev) : List Nat :=
  tr.filterMap (fun e =>
    match e with
    | .reportBytes c _ => some c
    | .reportOwned c _ => some c
    | _ => none)

/-- The estimator cells of the call sites inside a build program: the
cells a run of the program (or the teardown of the scopes it creates)
may write, other than the enclosing scope's own cells. -/
def usedCells : BuildProg → List Nat
  | .nil => []
  | .state _ _ rest => usedCells rest
  | .stateWith _ _ rest => usedCells rest
  | .child hB hO body rest => hB :: hO :: (usedCells body ++ usedCells rest)

@[simp] theorem applyTraceEst_nil (est : EstStore) :
    applyTraceEst est [] = est := rfl

@[simp] theorem applyTraceEst_cons (est : EstStore) (e : Ev) (tr : List Ev) :
    applyTraceEst est (e :: tr) = applyTraceEst (estStep est e) tr := rfl

theorem applyTraceEst_append (est : EstStore) (t₁ t₂ : List Ev) :
    applyTraceEst est (t₁ ++ t₂) = applyTraceEst (applyTraceEst est t₁) t₂ :=
  List.foldl_append ..

theorem applyTraceEst_map_removeH (est : EstStore) (l : List NodeRef) :
    applyTraceEst est (l.map Ev.removeH) = est := by
  induction l generalizing est with
  | nil => rfl
  | cons h t ih => simp [estStep, ih]

theorem applyTraceEst_not_reported (c : Nat) :
    ∀ (tr : List Ev) (est : EstStore), c ∉ reportCells tr →
      applyTraceEst est tr c = est c := by
  intro tr
  induction tr with
  | nil => intro est _; rfl
  | cons e t ih =>
      intro est hc
      cases e with
      | removeH h => exact ih est (by simpa [reportCells] using hc)
      | reportBytes c' n =>
          have hcc : ¬c = c' ∧ c ∉ reportCells t := by
            simpa [reportCells, not_or] using hc
          rw [applyTraceEst_cons, ih _ hcc.2]
          simp [estStep, setEst, hcc.1]
      | reportOwned c' n =>
          have hcc : ¬c = c' ∧ c ∉ reportCells t := by
            simpa [reportCells, not_or] using hc
          rw [applyTraceEst_cons, ih _ hcc.2]
          simp [estStep, setEst, hcc.1]
      | releaseBump => exact ih est (by simpa [reportCells] using hc)

theorem dropTraces_cons (x : ScopeM) (xs : List ScopeM) :
    dropTraces (x :: xs) = dropTrace x ++ dropTraces xs := by
  simp [dropTraces]

@[simp] theorem reportCells_pair (a b c d : Nat) :
    reportCells [Ev.reportBytes a b, Ev.reportOwned c d] = [a, c] := rfl

@[simp] theorem reportCells_release : reportCells [Ev.releaseBump] = [] := rfl

theorem reportCells_append (t₁ t₂ : List Ev) :
    reportCells (t₁ ++ t₂) = reportCells t₁ ++ reportCells t₂ :=
  List.filterMap_append ..

theorem reportCells_map_removeH (l : List NodeRef) :
    reportCells (l.map Ev.removeH) = [] := by
  induction l with
  | nil => rfl
  | cons h t ih => simpa [reportCells] using ih

/-- The teardown of the children a build program created writes only
estimator cells of call sites inside the program. -/
theorem reportCells_kids (p : BuildProg) :
    ∀ (q : Queue) (est : EstStore) (s : ScopeM) (c : Nat),
      c ∈ reportCells (dropTraces (buildKids p q est s)) → c ∈ usedCells p := by
  induction p with
  | nil => intro q est s c hc; simp [dropTraces, reportCells] at hc
  | state v n rest ih =>
      intro q est s c hc
      rw [buildKids_state] at hc
      exact ih _ _ _ _ hc
  | stateWith ctor n rest ih =>
      intro q est s c hc
      rw [buildKids_stateWith] at hc
      exact ih _ _ _ _ hc
  | child hB hO body rest ihb ihr =>
      intro q est s c hc
      rw [buildKids_child, dropTraces_cons, dropTrace_build,
        reportCells_append] at hc
      simp only [usedCells, List.mem_cons, List.mem_append]
      rcases List.mem_append.mp hc with hc | hc
      · simp only [reportCells_append, List.mem_append,
          reportCells_map_removeH, reportCells_pair, reportCells_release,
          List.not_mem_nil, or_false, false_or, List.mem_cons] at hc
        rcases hc with (rfl | rfl) | hc
        · exact Or.inl rfl
        · exact Or.inr (Or.inl rfl)
        · exact Or.inr (Or.inr (Or.inl (ihb _ _ _ _ hc)))
      · exact Or.inr (Or.inr (Or.inr (ihr _ _ _ _ hc)))
@[simp] theorem applyTraceEst_release (est : EstStore) :
    applyTraceEst est [Ev.releaseBump] = est := rfl

@[simp] theorem applyTraceEst_reports (est : EstStore) (a b c d : Nat) :
    applyTraceEst est [Ev.reportBytes a b, Ev.reportOwned c d] =
      setEst (setEst est a b) c d := rfl

/-- Running a build program writes no estimator cell outside the
program's call sites and the enclosing scope's owned-count cell. -/
theorem buildEst_not_used (p : BuildProg) :
    ∀ (q : Queue) (est : EstStore) (s : ScopeM) (c : Nat),
      c ∉ usedCells p → c ≠ s.updateOwnedId → buildEst p q est s c = est c := by
  induction p with
  | nil => intro q est s c _ _; rfl
  | state v n rest ih =>
      intro q est s c hc hs
      rw [buildEst_state]
      exact ih _ _ _ _ hc (by simpa using hs)
  | stateWith ctor n rest ih =>
      intro q est s c hc hs
      rw [buildEst_stateWith]
      exact ih _ _ _ _ hc (by simpa using hs)
  | child hB hO body rest ihb ihr =>
      intro q est s c hc hs
      simp only [usedCells, List.mem_cons, List.mem_append, not_or] at hc
      obtain ⟨hchB, hchO, hcb, hcr⟩ := hc
      rw [buildEst_child, ihr _ _ _ _ hcr (by simpa using hs)]
      simp only [setEst]
      rw [if_neg hs, if_neg hchB]
      exact ihb _ _ _ _ hcb (by simpa using hchO)

/-- One render pass at a structural position whose estimator cells are
`(hB, hO)`: create the scope pre-sized from the cells (`Scope::new`),
run the build program against it, then drop the scope — applying its
teardown trace to the slot table and to the estimator cells.  Returns
the final slot table, the final estimator store and the scope that
existed during the pass. -/
def renderCycle (hB hO : Nat) (p : BuildProg) (q : Queue) (est : EstStore) :
    Queue × EstStore × ScopeM :=
  (applyTraceQueue (buildQueue p q est (freshScope hB hO est))
      (dropTrace (buildScope p q est (freshScope hB hO est))),
    applyTraceEst (buildEst p q est (freshScope hB hO est))
      (dropTrace (buildScope p q est (freshScope hB hO est))),
    buildScope p q est (freshScope hB hO est))

/-- After a scope is dropped, its estimator cells hold exactly the
scope's final usage — the drop wrote the actual allocated bytes and
owned-handle count into the cells that size the next scope created at
the same structural position. -/
theorem renderCycle_est (hB hO : Nat) (p : BuildProg) (q : Queue)
    (est : EstStore) (hb : hB ∉ usedCells p) (ho : hO ∉ usedCells p)
    (hne : hB ≠ hO) :
    (renderCycle hB hO p q est).2.1 hB = bytesOf p ∧
    (renderCycle hB hO p q est).2.1 hO = ownedOf p := by
  obtain ⟨-, -, -, -, e5, e6, -⟩ := runProg_shape p q est (freshScope hB hO est)
  have hkB : hB ∉ reportCells
      (dropTraces (buildKids p q est (freshScope hB hO est))) :=
    fun hmem => hb (reportCells_kids p q est (freshScope hB hO est) hB hmem)
  have hkO : hO ∉ reportCells
      (dropTraces (buildKids p q est (freshScope hB hO est))) :=
    fun hmem => ho (reportCells_kids p q est (freshScope hB hO est) hO hmem)
  have hrw : (renderCycle hB hO p q est).2.1 =
      applyTraceEst
        (applyTraceEst
          (setEst
            (setEst (buildEst p q est (freshScope hB hO est)) hB
              (buildScope p q est (freshScope hB hO est)).allocatedBytes)
            hO (buildScope p q est (freshScope hB hO est)).owns.length)
          (dropTraces (buildKids p q est (freshScope hB hO est))))
        [Ev.releaseBump] := by
    show applyTraceEst _ (dropTrace _) = _
    rw [dropTrace_build, applyTraceEst_append, applyTraceEst_append,
      applyTraceEst_append, applyTraceEst_map_removeH,
      applyTraceEst_reports]
  rw [hrw]
  simp only [applyTraceEst_release]
  rw [applyTraceEst_not_reported hB _ _ hkB,
    applyTraceEst_not_reported hO _ _ hkO]
  constructor
  · simp [setEst, hne, Ne.symm hne]
    rw [e5]
    simp
  · simp [setEst]
    rw [e6]
    simp

/-- Successive render passes at the same structural position: each pass
re-creates the scope from the estimator cells, runs the same build
program against it, and drops it.  Returns the scopes of the passes in
order. -/
def renderCycles (hB hO : Nat) (p : BuildProg) :
    Nat → Queue → EstStore → List ScopeM
  | 0, _, _ => []
  | n + 1, q, est =>
      (renderCycle hB hO p q est).2.2 ::
        renderCycles hB hO p n (renderCycle hB hO p q est).1
          (renderCycle hB hO p q est).2.1

theorem renderCycles_steady (hB hO : Nat) (p : BuildProg)
    (hb : hB ∉ usedCells p) (ho : hO ∉ usedCells p) (hne : hB ≠ hO) :
    ∀ (m : Nat) (q : Queue) (est : EstStore),
      est hB = bytesOf p → est hO = ownedOf p →
      ∀ i (d : ScopeM), i < m →
        ((renderCycles hB hO p m q est).getD i d).bytesCap = bytesOf p ∧
        ((renderCycles hB hO p m q est).getD i d).ownsCap = ownedOf p ∧
        ((renderCycles hB hO p m q est).getD i d).allocatedBytes = bytesOf p ∧
        ((renderCycles hB hO p m q est).getD i d).owns.length = ownedOf p := by
  intro m
  induction m with
  | zero => intro q est _ _ i d hi; omega
  | succ n ih =>
      intro q est hB1 hO1 i d hi
      obtain ⟨e1, e2, e3, e4, e5, e6, e7⟩ :=
        runProg_shape p q est (freshScope hB hO est)
      cases i with
      | zero =>
          simp only [renderCycles, List.getD_cons_zero]
          exact ⟨by rw [show (renderCycle hB hO p q est).2.2 =
              buildScope p q est (freshScope hB hO est) from rfl, e3,
              freshScope_bytesCap, hB1],
            by rw [show (renderCycle hB hO p q est).2.2 =
              buildScope p q est (freshScope hB hO est) from rfl, e4,
              freshScope_ownsCap, hO1],
            by rw [show (renderCycle hB hO p q est).2.2 =
              buildScope p q est (freshScope hB hO est) from rfl, e5,
              freshScope_allocatedBytes, Nat.zero_add],
            by rw [show (renderCycle hB hO p q est).2.2 =
              buildScope p q est (freshScope hB hO est) from rfl, e6]
               simp⟩
      | succ j =>
          have hst := ih (renderCycle hB hO p q est).1
            (renderCycle hB hO p q est).2.1
            (renderCycle_est hB hO p q est hb ho hne).1
            (renderCycle_est hB hO p q est hb ho hne).2 j d (by omega)
          simpa only [renderCycles, List.getD_cons_succ] using hst

/-- **C3.** A dropped scope writes its actual final usage into the
estimator cells that size the next scope created at the same structural
position: after the very first render pass those cells hold the
program's usage (`bytesOf p`, `ownedOf p`), and every subsequent pass's
scope is created with capacities exactly equal to its actual usage —
capacity equals usage, so no growth event (usage exceeding capacity)
can occur.  The hypotheses say the position's two cells are distinct
and are not reused by any call site inside the program. -/
theorem c3_capacity_heuristic_convergence (hB hO : Nat) (p : BuildProg)
    (n : Nat) (q : Queue) (est : EstStore) (hb : hB ∉ usedCells p)
    (ho : hO ∉ usedCells p) (hne : hB ≠ hO) :
    (renderCycle hB hO p q est).2.1 hB = bytesOf p ∧
    (renderCycle hB hO p q est).2.1 hO = ownedOf p ∧
    ∀ i (d : ScopeM), 1 ≤ i → i < n →
      ((renderCycles hB hO p n q est).getD i d).bytesCap = bytesOf p ∧
      ((renderCycles hB hO p n q est).getD i d).ownsCap = ownedOf p ∧
      ((renderCycles hB hO p n q est).getD i d).allocatedBytes = bytesOf p ∧
      ((renderCycles hB hO p n q est).getD i d).owns.length = ownedOf p := by
  refine ⟨(renderCycle_est hB hO p q est hb ho hne).1,
    (renderCycle_est hB hO p q est hb ho hne).2, ?_⟩
  intro i d h1 hn
  cases n with
  | zero => omega
  | succ m =>
      cases i with
      | zero => omega
      | succ j =>
          have hst := renderCycles_steady hB hO p hb ho hne m
            (renderCycle hB hO p q est).1 (renderCycle hB hO p q est).2.1
            (renderCycle_est hB hO p q est hb ho hne).1
            (renderCycle_est hB hO p q est hb ho hne).2 j d (by omega)
          simpa only [renderCycles, List.getD_cons_succ] using hst

/-- Concrete instance of `c3_capacity_heuristic_convergence`: three
render passes of a program that allocates one 8-byte state; from the
second pass on, the scope is pre-sized to 8 bytes and one owned
handle. -/
theorem c3_capacity_heuristic_convergence_witness :
    (0 : Nat) ∉ usedCells (.state (Val.int 1) 8 .nil) ∧
    (1 : Nat) ∉ usedCells (.state (Val.int 1) 8 .nil) ∧
    (0 : Nat) ≠ 1 ∧
    ((renderCycle 0 1 (.state (Val.int 1) 8 .nil) Queue.empty
          (fun _ => 0)).2.1 0 = bytesOf (.state (Val.int 1) 8 .nil) ∧
      (renderCycle 0 1 (.state (Val.int 1) 8 .nil) Queue.empty
          (fun _ => 0)).2.1 1 = ownedOf (.state (Val.int 1) 8 .nil) ∧
      ∀ i (d : ScopeM), 1 ≤ i → i < 3 →
        ((renderCycles 0 1 (.state (Val.int 1) 8 .nil) 3 Queue.empty
              (fun _ => 0)).getD i d).bytesCap =
            bytesOf (.state (Val.int 1) 8 .nil) ∧
          ((renderCycles 0 1 (.state (Val.int 1) 8 .nil) 3 Queue.empty
              (fun _ => 0)).getD i d).ownsCap =
            ownedOf (.state (Val.int 1) 8 .nil) ∧
          ((renderCycles 0 1 (.state (Val.int 1) 8 .nil) 3 Queue.empty
              (fun _ => 0)).getD i d).allocatedBytes =
            bytesOf (.state (Val.int 1) 8 .nil) ∧
          ((renderCycles 0 1 (.state (Val.int 1) 8 .nil) 3 Queue.empty
              (fun _ => 0)).getD i d).owns.length =
            ownedOf (.state (Val.int 1) 8 .nil)) :=
  ⟨by decide, by decide, by decide,
    c3_capacity_heuristic_convergence 0 1 (.state (Val.int 1) 8 .nil) 3
      Queue.empty (fun _ => 0) (by decide) (by decide) (by decide)⟩


/-- `DirtyTrackSet<R, W>` of `lib.rs`: two fixed-width bit registers
(read-set and write-set).  The source's `R: PrimInt` / `W: PrimInt`
parameters fix the register width; the embedding carries the width and
keeps each register as a `Nat` reduced `% 2 ^ width`. -/
structure DirtyTrackSet where
  width : Nat
  read : Nat
  write : Nat
deriving DecidableEq, Repr

/-- `DirtyTrackSet::is_read`: `!(self.read.get() & (R::one() << num)).is_zero()`. -/
def DirtyTrackSet.is_read (s : DirtyTrackSet) (num : Nat) : Bool :=
  s.read &&& (1 <<< num) != 0

/-- `DirtyTrackSet::is_write`: `!(self.write.get() & (W::one() << num)).is_zero()`. -/
def DirtyTrackSet.is_write (s : DirtyTrackSet) (num : Nat) : Bool :=
  s.write &&& (1 <<< num) != 0

/-- `DirtyTrack::read` (`lib.rs`): or bit `num` into the read register. -/
def DirtyTrackSet.trackRead (s : DirtyTrackSet) (num : Nat) : DirtyTrackSet :=
  { s with read := (s.read ||| (1 <<< num)) % 2 ^ s.width }

/-- `DirtyTrack::write` (`lib.rs`): or bit `num` into the write
register. -/
def DirtyTrackSet.trackWrite (s : DirtyTrackSet) (num : Nat) : DirtyTrackSet :=
  { s with write := (s.write ||| (1 <<< num)) % 2 ^ s.width }

/-- `DirtyTrackSet::reset_read`: `self.read.set(R::zero())`. -/
def DirtyTrackSet.reset_read (s : DirtyTrackSet) : DirtyTrackSet :=
  { s with read := 0 }

/-- `DirtyTrackSet::reset_write`: `self.write.set(W::zero())`. -/
def DirtyTrackSet.reset_write (s : DirtyTrackSet) : DirtyTrackSet :=
  { s with write := 0 }

/-- `RwTrack<T, R, W>` of `lib.rs`: a guard wrapping a value together
with the tracked bit index of its `DirtyTrack` cursor. -/
structure RwTrack where
  data : Int
  num : Nat
deriving DecidableEq, Repr

/-- `Deref for RwTrack`: dereferencing records the read bit
(`self.tracking.read()`) and yields the value. -/
def RwTrack.deref (t : RwTrack) (s : DirtyTrackSet) : DirtyTrackSet × Int :=
  (s.trackRead t.num, t.data)

/-- `DerefMut for RwTrack`: mutably dereferencing records the write bit
(`self.tracking.write()`) and yields the value. -/
def RwTrack.derefMut (t : RwTrack) (s : DirtyTrackSet) : DirtyTrackSet × Int :=
  (s.trackWrite t.num, t.data)

/-- One tracking touch during a pass: a dereference (read) or a mutable
dereference (write) at some index. -/
inductive TrackOp where
  | readOp (num : Nat)
  | writeOp (num : Nat)

def applyTrackOp (s : DirtyTrackSet) : TrackOp → DirtyTrackSet
  | .readOp n => s.trackRead n
  | .writeOp n => s.trackWrite n

def applyTrackOps (s : DirtyTrackSet) (ops : List TrackOp) : DirtyTrackSet :=
  ops.foldl applyTrackOp s

theorem testBit_true_lt {x w j : Nat} (hx : x < 2 ^ w)
    (ht : x.testBit j = true) : j < w := by
  by_contra hge
  have h2 : (2 : Nat) ^ w ≤ 2 ^ j := Nat.pow_le_pow_right (by omega) (by omega)
  rw [Nat.testBit_eq_false_of_lt (by omega)] at ht
  cases ht

theorem applyTrackOp_step (s : DirtyTrackSet) (op : TrackOp) (j : Nat)
    (hr : s.read < 2 ^ s.width) (hw : s.write < 2 ^ s.width) :
    (applyTrackOp s op).width = s.width ∧
    (applyTrackOp s op).read < 2 ^ s.width ∧
    (applyTrackOp s op).write < 2 ^ s.width ∧
    (s.read.testBit j = true → (applyTrackOp s op).read.testBit j = true) ∧
    (s.write.testBit j = true → (applyTrackOp s op).write.testBit j = true) := by
  cases op with
  | readOp n =>
      refine ⟨rfl, ?_, hw, ?_, fun h => h⟩
      · exact Nat.mod_lt _ (Nat.pos_pow_of_pos _ (by omega))
      · intro h
        have hj : j < s.width := testBit_true_lt hr h
        simp [applyTrackOp, DirtyTrackSet.trackRead, Nat.testBit_mod_two_pow,
          hj, Nat.testBit_or, h]
  | writeOp n =>
      refine ⟨rfl, hr, ?_, fun h => h, ?_⟩
      · exact Nat.mod_lt _ (Nat.pos_pow_of_pos _ (by omega))
      · intro h
        have hj : j < s.width := testBit_true_lt hw h
        simp [applyTrackOp, DirtyTrackSet.trackWrite, Nat.testBit_mod_two_pow,
          hj, Nat.testBit_or, h]

theorem applyTrackOps_additive (ops : List TrackOp) :
    ∀ (s : DirtyTrackSet) (j : Nat), s.read < 2 ^ s.width →
      s.write < 2 ^ s.width →
      (s.read.testBit j = true → (applyTrackOps s ops).read.testBit j = true) ∧
      (s.write.testBit j = true →
        (applyTrackOps s ops).write.testBit j = true) := by
  induction ops with
  | nil => intro s j _ _; exact ⟨fun h => h, fun h => h⟩
  | cons op t ih =>
      intro s j hr hw
      obtain ⟨eW, h1, h2, h3, h4⟩ := applyTrackOp_step s op j hr hw
      obtain ⟨g1, g2⟩ := ih (applyTrackOp s op) j (by rw [eW]; exact h1)
        (by rw [eW]; exact h2)
      exact ⟨fun h => g1 (h3 h), fun h => g2 (h4 h)⟩

/-- `is_read` answers exactly the read register's bit, `is_write` the
write register's (`!(reg & (1 << num)).is_zero()`). -/
theorem is_read_eq_testBit (s : DirtyTrackSet) (num : Nat) :
    s.is_read num = s.read.testBit num := by
  rw [DirtyTrackSet.is_read, Nat.shiftLeft_eq, one_mul, Nat.and_two_pow]
  cases h : s.read.testBit num <;> simp [h]

theorem is_write_eq_testBit (s : DirtyTrackSet) (num : Nat) :
    s.is_write num = s.write.testBit num := by
  rw [DirtyTrackSet.is_write, Nat.shiftLeft_eq, one_mul, Nat.and_two_pow]
  cases h : s.write.testBit num <;> simp [h]

/-- **C4.** For a `DirtyTrackSet` with registers below `2 ^ width` and
an index inside the bit width: dereferencing through a track-guard sets
only the index's bit of the read register (the bit becomes set, every
other bit of the read register and the whole write register are
unchanged, and `is_read` answers true); mutably dereferencing sets only
the index's bit of the write register, leaving its other bits and the
whole read register unchanged; bits are purely additive within a pass —
after any further sequence of touches a set bit stays set, no matter how
often the same index is touched — and `reset_read` / `reset_write`
clear every bit of their whole register, leaving the other register
alone. -/
theorem c4_dirty_track_bits (s : DirtyTrackSet) (t : RwTrack)
    (hi : t.num < s.width) (hr : s.read < 2 ^ s.width)
    (hw : s.write < 2 ^ s.width) :
    (t.deref s).1.read.testBit t.num = true ∧
    (t.deref s).1.is_read t.num = true ∧
    (∀ j, j ≠ t.num → (t.deref s).1.read.testBit j = s.read.testBit j) ∧
    (t.deref s).1.write = s.write ∧
    (t.derefMut s).1.write.testBit t.num = true ∧
    (t.derefMut s).1.is_write t.num = true ∧
    (∀ j, j ≠ t.num → (t.derefMut s).1.write.testBit j = s.write.testBit j) ∧
    (t.derefMut s).1.read = s.read ∧
    (∀ ops j, s.read.testBit j = true →
      (applyTrackOps s ops).read.testBit j = true) ∧
    (∀ ops j, s.write.testBit j = true →
      (applyTrackOps s ops).write.testBit j = true) ∧
    (∀ j, s.reset_read.read.testBit j = false) ∧
    s.reset_read.write = s.write ∧
    (∀ j, s.reset_write.write.testBit j = false) ∧
    s.reset_write.read = s.read := by
  have hbit : ((s.read ||| 1 <<< t.num) % 2 ^ s.width).testBit t.num = true := by
    simp [Nat.testBit_mod_two_pow, hi, Nat.testBit_or, Nat.shiftLeft_eq,
      Nat.testBit_two_pow]
  have hbitw : ((s.write ||| 1 <<< t.num) % 2 ^ s.width).testBit t.num = true := by
    simp [Nat.testBit_mod_two_pow, hi, Nat.testBit_or, Nat.shiftLeft_eq,
      Nat.testBit_two_pow]
  refine ⟨hbit, ?_, ?_, rfl, hbitw, ?_, ?_, rfl, ?_, ?_, ?_, rfl, ?_, rfl⟩
  · rw [is_read_eq_testBit]
    exact hbit
  · intro j hj
    show ((s.read ||| 1 <<< t.num) % 2 ^ s.width).testBit j = s.read.testBit j
    by_cases hjw : j < s.width
    · simp [Nat.testBit_mod_two_pow, hjw, Nat.testBit_or, Nat.shiftLeft_eq,
        Nat.testBit_two_pow_of_ne (Ne.symm hj)]
    · rw [Nat.testBit_mod_two_pow]
      have : s.read.testBit j = false :=
        Nat.testBit_eq_false_of_lt
          (lt_of_lt_of_le hr (Nat.pow_le_pow_right (by omega) (by omega)))
      simp [hjw, this]
  · rw [is_write_eq_testBit]
    exact hbitw
  · intro j hj
    show ((s.write ||| 1 <<< t.num) % 2 ^ s.width).testBit j = s.write.testBit j
    by_cases hjw : j < s.width
    · simp [Nat.testBit_mod_two_pow, hjw, Nat.testBit_or, Nat.shiftLeft_eq,
        Nat.testBit_two_pow_of_ne (Ne.symm hj)]
    · rw [Nat.testBit_mod_two_pow]
      have : s.write.testBit j = false :=
        Nat.testBit_eq_false_of_lt
          (lt_of_lt_of_le hw (Nat.pow_le_pow_right (by omega) (by omega)))
      simp [hjw, this]
  · intro ops j h
    exact (applyTrackOps_additive ops s j hr hw).1 h
  · intro ops j h
    exact (applyTrackOps_additive ops s j hr hw).2 h
  · intro j
    simp [DirtyTrackSet.reset_read]
  · intro j
    simp [DirtyTrackSet.reset_write]

/-- Concrete instance of `c4_dirty_track_bits`: 8-bit registers, both
clear, a guard tracking index 3. -/
theorem c4_dirty_track_bits_witness :
    ((3 : Nat) < (DirtyTrackSet.mk 8 0 0).width ∧
      (DirtyTrackSet.mk 8 0 0).read < 2 ^ (DirtyTrackSet.mk 8 0 0).width ∧
      (DirtyTrackSet.mk 8 0 0).write < 2 ^ (DirtyTrackSet.mk 8 0 0).width) ∧
    ((RwTrack.mk 5 3).deref (DirtyTrackSet.mk 8 0 0)).1.read.testBit 3 =
        true ∧
      ((RwTrack.mk 5 3).deref (DirtyTrackSet.mk 8 0 0)).1.is_read 3 = true ∧
      ((RwTrack.mk 5 3).derefMut (DirtyTrackSet.mk 8 0 0)).1.write.testBit 3 =
        true :=
  ⟨⟨by decide, by decide, by decide⟩,
    (c4_dirty_track_bits (DirtyTrackSet.mk 8 0 0) (RwTrack.mk 5 3)
        (by decide) (by decide) (by decide)).1,
    (c4_dirty_track_bits (DirtyTrackSet.mk 8 0 0) (RwTrack.mk 5 3)
        (by decide) (by decide) (by decide)).2.1,
    (c4_dirty_track_bits (DirtyTrackSet.mk 8 0 0) (RwTrack.mk 5 3)
        (by decide) (by decide) (by decide)).2.2.2.2.1⟩

/-- Modelled from the spec: `RuntimeId` in multi-instance ("ssr") mode —
a generational key of the runtime keyed table ("id recycling uses a
generational key scheme to avoid use-after-free across multiple logical
runtimes"). -/
structure RuntimeId where
  idx : Nat
  gen : Nat
deriving DecidableEq, Repr

/-- One slot of the runtime keyed table: its current generation and the
runtime it holds (`none` = vacant; a runtime's payload is its slot
table). -/
structure RtSlot where
  gen : Nat
  rt : Option Queue
deriving DecidableEq, Repr

/-- Modelled from the spec: the thread-local `RUNTIMES` keyed table of
`copy.rs` in ssr mode — a generational slab of runtimes that reuses
freed slots. -/
structure Runtimes where
  slots : List RtSlot
  freeList : List Nat
deriving DecidableEq, Repr

def Runtimes.empty : Runtimes := ⟨[], []⟩

/-- `RuntimeId::create` / `claim_rt` (ssr mode): insert a fresh runtime
(an empty slot table), reusing a freed slot when one exists. -/
def Runtimes.claimRt (t : Runtimes) : Runtimes × RuntimeId :=
  match t.freeList with
  | i :: rest =>
      (⟨t.slots.set i
          ⟨((t.slots[i]?).getD ⟨0, none⟩).gen, some Queue.empty⟩, rest⟩,
        ⟨i, ((t.slots[i]?).getD ⟨0, none⟩).gen⟩)
  | [] => (⟨t.slots ++ [⟨0, some Queue.empty⟩], []⟩, ⟨t.slots.length, 0⟩)

/-- `with_rt` (ssr mode): look the runtime up by its generational id;
`none` models the fatal
`expect("tried to get a runtime that was dropped")` panic — a
non-recoverable programming-error signal, never a silent success or a
recoverable error value. -/
def Runtimes.withRt (t : Runtimes) (id : RuntimeId) : Option Queue :=
  match t.slots[id.idx]? with
  | some s => if s.gen = id.gen then s.rt else none
  | none => none

/-- `drop_rt`: remove the runtime from the table (dropping its slot
table and with it every live value).  The slot's generation is bumped so
the dropped id can never address the slot again, and the slot is freed
for reuse; on an already-invalid id the underlying keyed-table removal
is a no-op (`remove` returns `None`, which `drop_rt` ignores). -/
def Runtimes.dropRt (t : Runtimes) (id : RuntimeId) : Runtimes :=
  match t.slots[id.idx]? with
  | some s =>
      if s.gen = id.gen then
        match s.rt with
        | some _ => ⟨t.slots.set id.idx ⟨s.gen + 1, none⟩, id.idx :: t.freeList⟩
        | none => t
      else t
  | none => t

/-- Any sequence of later runtime-table operations: creating new
runtimes (which may reuse the freed slot) and dropping runtimes. -/
inductive RtOp where
  | claim
  | drop (id : RuntimeId)

def applyRtOps (t : Runtimes) : List RtOp → Runtimes
  | [] => t
  | .claim :: rest => applyRtOps (t.claimRt).1 rest
  | .drop id :: rest => applyRtOps (t.dropRt id) rest

/-- Once a slot's generation has passed an id's generation it never goes
back: claiming and dropping only preserve or increase slot generations
and never shrink the table. -/
theorem applyRtOps_stale (ops : List RtOp) :
    ∀ (t : Runtimes) (id : RuntimeId) (s : RtSlot),
      t.slots[id.idx]? = some s → id.gen < s.gen →
      ∃ s', (applyRtOps t ops).slots[id.idx]? = some s' ∧ id.gen < s'.gen := by
  induction ops with
  | nil => intro t id s hs hg; exact ⟨s, hs, hg⟩
  | cons op rest ih =>
      intro t id s hs hg
      have hlen : id.idx < t.slots.length := by
        rcases Nat.lt_or_ge id.idx t.slots.length with h' | h'
        · exact h'
        · rw [List.getElem?_eq_none h'] at hs; cases hs
      cases op with
      | claim =>
          show ∃ s', (applyRtOps (t.claimRt).1 rest).slots[id.idx]? = some s' ∧ _
          rcases hfl : t.freeList with _ | ⟨i, fl⟩
          · refine ih _ id s ?_ hg
            simp [Runtimes.claimRt, hfl, List.getElem?_append_left hlen, hs]
          · by_cases hii : i = id.idx
            · subst hii
              refine ih _ id ⟨s.gen, some Queue.empty⟩ ?_ hg
              simp [Runtimes.claimRt, hfl, List.getElem?_set_self hlen, hs]
            · refine ih _ id s ?_ hg
              simp [Runtimes.claimRt, hfl, List.getElem?_set_ne hii, hs]
      | drop id₂ =>
          show ∃ s', (applyRtOps (t.dropRt id₂) rest).slots[id.idx]? = some s' ∧ _
          rcases hs₂ : t.slots[id₂.idx]? with _ | s₂
          · refine ih _ id s ?_ hg
            simp [Runtimes.dropRt, hs₂, hs]
          · by_cases hgen : s₂.gen = id₂.gen
            · rcases hrt : s₂.rt with _ | q
              · refine ih _ id s ?_ hg
                simp [Runtimes.dropRt, hs₂, hgen, hrt, hs]
              · by_cases hii : id₂.idx = id.idx
                · have hs₂' : t.slots[id₂.idx]? = some s₂ := hs₂
                  rw [hii, hs] at hs₂
                  injection hs₂ with he
                  subst he
                  have hlen₂ : id₂.idx < t.slots.length := by
                    rw [hii]; exact hlen
                  refine ih _ id ⟨s.gen + 1, none⟩ ?_
                    (by show id.gen < s.gen + 1; omega)
                  rw [show t.dropRt id₂ =
                      ⟨t.slots.set id₂.idx ⟨s.gen + 1, none⟩,
                        id₂.idx :: t.freeList⟩ from by
                    simp [Runtimes.dropRt, hs₂', hgen, hrt]]
                  rw [← hii]
                  simp [List.getElem?_set_self hlen₂]
                · refine ih _ id s ?_ hg
                  simp [Runtimes.dropRt, hs₂, hgen, hrt,
                    List.getElem?_set_ne hii, hs]
            · refine ih _ id s ?_ hg
              simp [Runtimes.dropRt, hs₂, hgen, hs]

/-- **C9.** Once a runtime id has been dropped via `drop_rt`, every
subsequent `with_rt` access through that id — after any further
sequence of runtime creations (including ones that reuse the freed
slot) and drops — signals the fatal, non-recoverable runtime-not-found
error (`none`, the model of the `expect` panic); it never silently
succeeds. -/
theorem c9_dropped_runtime_fatal (t : Runtimes) (id : RuntimeId)
    (hlive : (t.withRt id).isSome = true) (ops : List RtOp) :
    (applyRtOps (t.dropRt id) ops).withRt id = none := by
  rcases hs : t.slots[id.idx]? with _ | s
  · simp [Runtimes.withRt, hs] at hlive
  · have hlen : id.idx < t.slots.length := by
      rcases Nat.lt_or_ge id.idx t.slots.length with h' | h'
      · exact h'
      · rw [List.getElem?_eq_none h'] at hs; cases hs
    by_cases hgen : s.gen = id.gen
    · rcases hrt : s.rt with _ | q
      · simp [Runtimes.withRt, hs, hgen, hrt] at hlive
      · have hdrop : (t.dropRt id).slots[id.idx]? = some ⟨s.gen + 1, none⟩ := by
          simp [Runtimes.dropRt, hs, hgen, hrt, List.getElem?_set_self hlen]
        obtain ⟨s', hs', hg'⟩ := applyRtOps_stale ops (t.dropRt id) id
          ⟨s.gen + 1, none⟩ hdrop (by show id.gen < s.gen + 1; omega)
        simp [Runtimes.withRt, hs']
        intro hcontr
        omega
    · simp [Runtimes.withRt, hs, hgen] at hlive

/-- Concrete instance of `c9_dropped_runtime_fatal`: a table holding one
live runtime at id `⟨0, 0⟩`; after dropping it and then claiming a new
runtime (which reuses slot 0 under a new generation), `with_rt` on the
old id still fails fatally. -/
theorem c9_dropped_runtime_fatal_witness :
    ((Runtimes.mk [⟨0, some Queue.empty⟩] []).withRt ⟨0, 0⟩).isSome = true ∧
      (applyRtOps
          ((Runtimes.mk [⟨0, some Queue.empty⟩] []).dropRt ⟨0, 0⟩)
          [RtOp.claim]).withRt ⟨0, 0⟩ = none :=
  ⟨by decide,
    c9_dropped_runtime_fatal (Runtimes.mk [⟨0, some Queue.empty⟩] []) ⟨0, 0⟩
      (by decide) [RtOp.claim]⟩

example :
    dropTrace (.mk [⟨0, 0⟩] [] 4 7 8 0 0) =
      [Ev.removeH ⟨0, 0⟩, Ev.reportBytes 7 4, Ev.reportOwned 8 1,
        Ev.releaseBump] := by
  decide

example : (Queue.empty.insert (Val.int 42)).2 = ⟨0, 0⟩ := by decide

example :
    (Queue.empty.insert (Val.int 42)).1.borrow ⟨0, 0⟩ = some (Val.int 42) := by
  decide

end QK
